import Mathlib

/-!
# WardenStudio — message reconciliation and persistence core, verified model

A shallow embedding of the reconciliation/persistence core of the WardenStudio
chat client:

* the in-memory ordered view and its operations (`useChatStore` in
  `store/chatStore.ts`: `addMessage`, `addSubscription`, `deleteMessage`,
  `markAsRead`, `loadFromDatabase`),
* the durable store (`DatabaseService` in `electron/database.ts`:
  `insertMessage`, `updateMessage`, `findRecentSelfMessage`,
  `markMessageAsDeleted`, `getRecentMessages`, `getRecentSubscriptions`,
  `getMessageCountByUserId`, `upsertViewer`),
* the glue that drives both from live chat traffic
  (`TwitchChatService.connect` message handler and
  `TwitchChatService.sendMessage`), and
* the read watermark computation (`isRead` in the presentation layer).

JS `Date` values are modelled as integer milliseconds.  JS `x || null` /
`x || undefined` coalescing of falsy values is modelled explicitly
(`orNullStr`, `orNullNat`).  SQL `ORDER BY timestamp DESC ... LIMIT n`
followed by the in-code `reverse()` is modelled with an explicit stable
insertion sort.
-/

set_option maxHeartbeats 1000000

namespace WardenStudio

/-- Milliseconds since the Unix epoch; the numeric value of a JS `Date`. -/
abbrev Millis := Int

/-! ## Stable sorting by an integer key

Models `ORDER BY timestamp DESC` (`sortByDesc`) and the JS
`items.sort((a, b) => a.timestamp - b.timestamp)` (`sortByAsc`). -/

/-- Insert `a` into a descending-sorted list, before the first element whose
key is at most `a`'s (so among equal keys, `a` lands first: stable). -/
def insertByDesc {α : Type} (key : α → Millis) (a : α) : List α → List α
  | [] => [a]
  | b :: l => if key b ≤ key a then a :: b :: l else b :: insertByDesc key a l

/-- Stable insertion sort, descending by `key`. -/
def sortByDesc {α : Type} (key : α → Millis) : List α → List α
  | [] => []
  | a :: l => insertByDesc key a (sortByDesc key l)

/-- Insert `a` into an ascending-sorted list, before the first element whose
key is at least `a`'s (stable). -/
def insertByAsc {α : Type} (key : α → Millis) (a : α) : List α → List α
  | [] => [a]
  | b :: l => if key a ≤ key b then a :: b :: l else b :: insertByAsc key a l

/-- Stable insertion sort, ascending by `key`. -/
def sortByAsc {α : Type} (key : α → Millis) : List α → List α
  | [] => []
  | a :: l => insertByAsc key a (sortByAsc key l)

theorem insertByDesc_nil {α : Type} (key : α → Millis) (a : α) :
    insertByDesc key a [] = [a] := rfl

theorem insertByDesc_cons {α : Type} (key : α → Millis) (a b : α) (l : List α) :
    insertByDesc key a (b :: l) =
      if key b ≤ key a then a :: b :: l else b :: insertByDesc key a l := rfl

theorem sortByDesc_nil {α : Type} (key : α → Millis) : sortByDesc key ([] : List α) = [] := rfl

theorem sortByDesc_cons {α : Type} (key : α → Millis) (a : α) (l : List α) :
    sortByDesc key (a :: l) = insertByDesc key a (sortByDesc key l) := rfl

theorem insertByAsc_nil {α : Type} (key : α → Millis) (a : α) :
    insertByAsc key a [] = [a] := rfl

theorem insertByAsc_cons {α : Type} (key : α → Millis) (a b : α) (l : List α) :
    insertByAsc key a (b :: l) =
      if key a ≤ key b then a :: b :: l else b :: insertByAsc key a l := rfl

theorem sortByAsc_nil {α : Type} (key : α → Millis) : sortByAsc key ([] : List α) = [] := rfl

theorem sortByAsc_cons {α : Type} (key : α → Millis) (a : α) (l : List α) :
    sortByAsc key (a :: l) = insertByAsc key a (sortByAsc key l) := rfl

theorem insertByDesc_perm {α : Type} (key : α → Millis) (a : α) (l : List α) :
    (insertByDesc key a l).Perm (a :: l) := by
  induction l with
  | nil => simp [insertByDesc_nil]
  | cons b l ih =>
    rw [insertByDesc_cons]
    split
    · exact List.Perm.refl _
    · exact (List.Perm.cons b ih).trans (List.Perm.swap a b l)

theorem sortByDesc_perm {α : Type} (key : α → Millis) (l : List α) :
    (sortByDesc key l).Perm l := by
  induction l with
  | nil => simp [sortByDesc_nil]
  | cons a l ih =>
    exact (insertByDesc_perm key a (sortByDesc key l)).trans (List.Perm.cons a ih)

theorem insertByAsc_perm {α : Type} (key : α → Millis) (a : α) (l : List α) :
    (insertByAsc key a l).Perm (a :: l) := by
  induction l with
  | nil => simp [insertByAsc_nil]
  | cons b l ih =>
    rw [insertByAsc_cons]
    split
    · exact List.Perm.refl _
    · exact (List.Perm.cons b ih).trans (List.Perm.swap a b l)

theorem sortByAsc_perm {α : Type} (key : α → Millis) (l : List α) :
    (sortByAsc key l).Perm l := by
  induction l with
  | nil => simp [sortByAsc_nil]
  | cons a l ih =>
    exact (insertByAsc_perm key a (sortByAsc key l)).trans (List.Perm.cons a ih)

theorem insertByDesc_pairwise {α : Type} (key : α → Millis) (a : α) (l : List α)
    (h : l.Pairwise (fun x y => key y ≤ key x)) :
    (insertByDesc key a l).Pairwise (fun x y => key y ≤ key x) := by
  induction l with
  | nil => simp [insertByDesc_nil]
  | cons b l ih =>
    rw [insertByDesc_cons]
    rcases List.pairwise_cons.mp h with ⟨hb, hl⟩
    split
    · rename_i hba
      refine List.pairwise_cons.mpr ⟨?_, h⟩
      intro y hy
      rcases List.mem_cons.mp hy with rfl | hy
      · exact hba
      · exact le_trans (hb y hy) hba
    · rename_i hba
      push_neg at hba
      refine List.pairwise_cons.mpr ⟨?_, ih hl⟩
      intro y hy
      rcases List.mem_cons.mp ((insertByDesc_perm key a l).mem_iff.mp hy) with rfl | h2
      · exact le_of_lt hba
      · exact hb y h2

theorem sortByDesc_pairwise {α : Type} (key : α → Millis) (l : List α) :
    (sortByDesc key l).Pairwise (fun x y => key y ≤ key x) := by
  induction l with
  | nil => simp [sortByDesc_nil]
  | cons a l ih => exact insertByDesc_pairwise key a _ ih

theorem insertByAsc_pairwise {α : Type} (key : α → Millis) (a : α) (l : List α)
    (h : l.Pairwise (fun x y => key x ≤ key y)) :
    (insertByAsc key a l).Pairwise (fun x y => key x ≤ key y) := by
  induction l with
  | nil => simp [insertByAsc_nil]
  | cons b l ih =>
    rw [insertByAsc_cons]
    rcases List.pairwise_cons.mp h with ⟨hb, hl⟩
    split
    · rename_i hab
      refine List.pairwise_cons.mpr ⟨?_, h⟩
      intro y hy
      rcases List.mem_cons.mp hy with rfl | hy
      · exact hab
      · exact le_trans hab (hb y hy)
    · rename_i hab
      push_neg at hab
      refine List.pairwise_cons.mpr ⟨?_, ih hl⟩
      intro y hy
      rcases List.mem_cons.mp ((insertByAsc_perm key a l).mem_iff.mp hy) with rfl | h2
      · exact le_of_lt hab
      · exact hb y h2

theorem sortByAsc_pairwise {α : Type} (key : α → Millis) (l : List α) :
    (sortByAsc key l).Pairwise (fun x y => key x ≤ key y) := by
  induction l with
  | nil => simp [sortByAsc_nil]
  | cons a l ih => exact insertByAsc_pairwise key a _ ih

/-- Inserting an element whose key strictly dominates the whole list lands it
at the very end (ascending order). -/
theorem insertByAsc_eq_append {α : Type} (key : α → Millis) (a : α) (l : List α)
    (h : ∀ x ∈ l, key x < key a) : insertByAsc key a l = l ++ [a] := by
  induction l with
  | nil => simp [insertByAsc_nil]
  | cons b l ih =>
    have hb : key b < key a := h b (by simp)
    rw [insertByAsc_cons, if_neg (not_le.mpr hb), ih (fun x hx => h x (by simp [hx]))]
    rfl

/-- Inserting an element whose key strictly dominates the whole list lands it
at the very front (descending order). -/
theorem insertByDesc_eq_cons {α : Type} (key : α → Millis) (a : α) (l : List α)
    (h : ∀ x ∈ l, key x < key a) : insertByDesc key a l = a :: l := by
  cases l with
  | nil => simp [insertByDesc_nil]
  | cons b l =>
    have hb : key b < key a := h b (by simp)
    rw [insertByDesc_cons, if_pos (le_of_lt hb)]

/-- A strictly dominating element appended to the input comes out in front of
the descending sort of the rest. -/
theorem sortByDesc_append_max {α : Type} (key : α → Millis) (a : α) (l : List α)
    (h : ∀ x ∈ l, key x < key a) :
    sortByDesc key (l ++ [a]) = a :: sortByDesc key l := by
  induction l with
  | nil => simp [sortByDesc_nil, sortByDesc_cons, insertByDesc_nil]
  | cons b l ih =>
    have hb : key b < key a := h b (by simp)
    rw [List.cons_append, sortByDesc_cons, ih (fun x hx => h x (by simp [hx])),
      sortByDesc_cons, insertByDesc_cons, if_neg (not_le.mpr hb)]

/-- Inserting below a trailing maximal element keeps that element last. -/
theorem insertByAsc_append_max {α : Type} (key : α → Millis) (b a : α) (l : List α)
    (hba : key b ≤ key a) :
    insertByAsc key b (l ++ [a]) = insertByAsc key b l ++ [a] := by
  induction l with
  | nil => simp [insertByAsc_nil, insertByAsc_cons, if_pos hba]
  | cons c l ih =>
    rw [List.cons_append, insertByAsc_cons, insertByAsc_cons]
    split
    · rfl
    · rw [ih]; rfl

/-- A strictly dominating element placed anywhere in the input comes out at
the very end of the ascending sort, with the rest sorted as before. -/
theorem sortByAsc_append_max {α : Type} (key : α → Millis) (a : α) (A B : List α)
    (h : ∀ x ∈ A ++ B, key x < key a) :
    sortByAsc key (A ++ a :: B) = sortByAsc key (A ++ B) ++ [a] := by
  induction A with
  | nil =>
    rw [List.nil_append, List.nil_append, sortByAsc_cons]
    refine insertByAsc_eq_append key a _ ?_
    intro x hx
    exact h x ((sortByAsc_perm key B).mem_iff.mp hx)
  | cons c A ih =>
    have hc : key c < key a := h c (by simp)
    rw [List.cons_append, List.cons_append, sortByAsc_cons, sortByAsc_cons,
      ih (fun x hx => h x (List.mem_cons_of_mem c hx))]
    exact insertByAsc_append_max key c a _ (le_of_lt hc)

/-- JS `String.prototype.startsWith` (and SQL `LIKE 'self-%'`), modelled
character-wise so that it evaluates inside the kernel. -/
def strStartsWith (s p : String) : Bool := p.data.isPrefixOf s.data

theorem strStartsWith_append (s p : String) : strStartsWith (p ++ s) p = true := by
  simp [strStartsWith, String.data_append, List.isPrefixOf_iff_prefix]

/-! ## Data model

`ChatMessage` is the in-memory message record delivered to the ordered view
(`TwitchChatService.ChatMessage`); `SubscriptionEvent` the subscription event
record (`TwitchEventSubService.SubscriptionEvent`).  Optional JS fields are
`Option`s; a JS `undefined` boolean read through truthiness is `false`. -/

structure ChatMessage where
  id : String
  username : String
  userId : String
  displayName : String
  message : String
  timestamp : Millis
  color : Option String
  badges : List String
  isFirstMessage : Bool
  isReturningChatter : Bool
  isHighlighted : Bool
  bits : Option Nat
  replyParentMessageId : Option String
  emoteOffsets : Option String
  isDeleted : Bool
deriving Repr, DecidableEq

structure SubscriptionEvent where
  id : String
  type : String
  userId : String
  channelId : String
  timestamp : Millis
  tier : String
  message : Option String
  cumulativeMonths : Option Nat
  streakMonths : Option Nat
  durationMonths : Option Nat
  isGift : Bool
  gifterUserId : Option String
  amount : Option Nat
deriving Repr, DecidableEq

/-- `ChatItem = ChatMessage | SubscriptionEvent` (store/chatStore.ts). -/
inductive ChatItem where
  | message (m : ChatMessage)
  | subscription (s : SubscriptionEvent)
deriving Repr, DecidableEq

def ChatItem.id : ChatItem → String
  | .message m => m.id
  | .subscription s => s.id

def ChatItem.timestamp : ChatItem → Millis
  | .message m => m.timestamp
  | .subscription s => s.timestamp

/-- Type guard `isChatMessage` (store/chatStore.ts). -/
def isChatMessage : ChatItem → Bool
  | .message _ => true
  | .subscription _ => false

/-! ## Ordered view operations (`useChatStore`, store/chatStore.ts) -/

/-- The predicate of the `findIndex` inside `addMessage`: a recent `self-`
message from the same user with the same content, timestamps within 5000 ms. -/
def selfEchoMatch (incoming : ChatMessage) : ChatItem → Bool
  | .message m =>
      strStartsWith m.id "self-" && m.username == incoming.username &&
        m.message == incoming.message &&
        decide ((m.timestamp - incoming.timestamp).natAbs < 5000)
  | .subscription _ => false

/-- `useChatStore.addMessage`: drop exact-id duplicates; a non-`self-` message
replaces, in place, the first matching recent `self-` message; otherwise the
message is appended. -/
def addMessage (messages : List ChatItem) (incoming : ChatMessage) : List ChatItem :=
  if messages.any (fun item => item.id == incoming.id) then
    messages
  else if strStartsWith incoming.id "self-" then
    messages ++ [ChatItem.message incoming]
  else
    match messages.findIdx? (selfEchoMatch incoming) with
    | some i => messages.set i (ChatItem.message incoming)
    | none => messages ++ [ChatItem.message incoming]

/-- `useChatStore.addSubscription`: drop exact-id duplicates, else append. -/
def addSubscription (messages : List ChatItem) (s : SubscriptionEvent) : List ChatItem :=
  if messages.any (fun item => item.id == s.id) then messages
  else messages ++ [ChatItem.subscription s]

/-- The per-item mapper of `useChatStore.deleteMessage`: flip `isDeleted` on
the chat message with the given id, leave everything else alone. -/
def deleteFlag (messageId : String) : ChatItem → ChatItem
  | .message m =>
      if m.id == messageId then .message { m with isDeleted := true } else .message m
  | .subscription s => .subscription s

/-- `useChatStore.deleteMessage`: flip `isDeleted` on the chat message with the
given id; rows are neither removed nor reordered. -/
def deleteMessage (messages : List ChatItem) (messageId : String) : List ChatItem :=
  messages.map (deleteFlag messageId)

/-- The view state the read watermark lives in (`messages` plus
`lastReadMessageId`, persisted separately in localStorage). -/
structure ViewState where
  messages : List ChatItem
  lastReadMessageId : Option String
deriving Repr, DecidableEq

/-- `useChatStore.markAsRead`: no-op when the id is absent from the view,
otherwise the watermark becomes that id. -/
def markAsRead (st : ViewState) (messageId : String) : ViewState :=
  match st.messages.findIdx? (fun m => m.id == messageId) with
  | none => st
  | some _ => { st with lastReadMessageId := some messageId }

/-- `useChatStore.markAllAsRead`: watermark becomes the last item's id. -/
def markAllAsRead (st : ViewState) : ViewState :=
  match st.messages.getLast? with
  | none => st
  | some item => { st with lastReadMessageId := some item.id }

/-- The `lastReadIndex` computation at render time: `findIndex` of the
watermark id, `-1` when unset or absent. -/
def lastReadIndex (messages : List ChatItem) (lastReadMessageId : Option String) : Int :=
  match lastReadMessageId with
  | some rid =>
      match messages.findIdx? (fun m => m.id == rid) with
      | some i => (i : Int)
      | none => -1
  | none => -1

/-- `isRead` at render time: `lastReadIndex >= 0 && index <= lastReadIndex`. -/
def isRead (messages : List ChatItem) (lastReadMessageId : Option String) (index : Nat) : Bool :=
  let li := lastReadIndex messages lastReadMessageId
  decide (0 ≤ li) && decide ((index : Int) ≤ li)

/-! ## Durable store (`DatabaseService`, electron/database.ts) -/

/-- A row of the `viewers` table. -/
structure Viewer where
  id : String
  username : String
  displayName : String
deriving Repr, DecidableEq

/-- A row of the `messages` table (`username`/`displayName` live in `viewers`). -/
structure MessageRow where
  id : String
  userId : String
  channelId : String
  message : String
  timestamp : Millis
  color : Option String
  badges : List String
  isFirstMessage : Bool
  isReturningChatter : Bool
  isHighlighted : Bool
  bits : Option Nat
  replyParentMessageId : Option String
  emoteOffsets : Option String
  isDeleted : Bool
deriving Repr, DecidableEq

/-- The SQLite database: `viewers`, `messages` and `subscriptions` tables,
each kept in insertion order. -/
structure Store where
  viewers : List Viewer
  messages : List MessageRow
  subscriptions : List SubscriptionEvent
deriving Repr, DecidableEq

def Store.empty : Store := ⟨[], [], []⟩

/-- JS `x || null` on an optional string: the empty string is falsy. -/
def orNullStr : Option String → Option String
  | some s => if s == "" then none else some s
  | none => none

/-- JS `x || null` on an optional number: `0` is falsy. -/
def orNullNat : Option Nat → Option Nat
  | some n => if n == 0 then none else some n
  | none => none

/-- `DatabaseService.upsertViewer`: `INSERT ... ON CONFLICT(id) DO UPDATE`,
last write wins on `username`/`displayName`. -/
def upsertViewer (st : Store) (id username displayName : String) : Store :=
  if st.viewers.any (fun v => v.id == id) then
    { st with viewers := st.viewers.map (fun v =>
        if v.id == id then { v with username := username, displayName := displayName } else v) }
  else
    { st with viewers := st.viewers ++ [⟨id, username, displayName⟩] }

/-- The argument object of `DatabaseService.insertMessage` (no `isDeleted`:
the column takes its schema default `0`). -/
structure MessageInsert where
  id : String
  userId : String
  channelId : String
  message : String
  timestamp : Millis
  color : Option String
  badges : List String
  isFirstMessage : Bool
  isReturningChatter : Bool
  isHighlighted : Bool
  bits : Option Nat
  replyParentMessageId : Option String
  emoteOffsets : Option String
deriving Repr, DecidableEq

/-- The row written by `insertMessage`: falsy fields coalesce to `NULL`,
`isDeleted` defaults to `0`. -/
def MessageInsert.toRow (m : MessageInsert) : MessageRow :=
  { id := m.id, userId := m.userId, channelId := m.channelId, message := m.message,
    timestamp := m.timestamp, color := orNullStr m.color, badges := m.badges,
    isFirstMessage := m.isFirstMessage, isReturningChatter := m.isReturningChatter,
    isHighlighted := m.isHighlighted, bits := orNullNat m.bits,
    replyParentMessageId := orNullStr m.replyParentMessageId,
    emoteOffsets := orNullStr m.emoteOffsets, isDeleted := false }

/-- `DatabaseService.insertMessage`: `INSERT ... ON CONFLICT(id) DO NOTHING`. -/
def insertMessage (st : Store) (m : MessageInsert) : Store :=
  if st.messages.any (fun row => row.id == m.id) then st
  else { st with messages := st.messages ++ [m.toRow] }

/-- `DatabaseService.findRecentSelfMessage`: the most recent `self-` row of
this user/channel with exactly this text and `timestamp > now - withinMs`
(`ORDER BY timestamp DESC LIMIT 1`), returning its id. -/
def findRecentSelfMessage (st : Store) (userId channelId messageText : String)
    (withinMs : Millis) (now : Millis) : Option String :=
  let cutoff := now - withinMs
  let candidates := st.messages.filter (fun r =>
    r.userId == userId && r.channelId == channelId && r.message == messageText &&
      strStartsWith r.id "self-" && decide (cutoff < r.timestamp))
  ((sortByDesc (fun r => r.timestamp) candidates).head?).map (fun r => r.id)

/-- The `updates` object of `DatabaseService.updateMessage`.  `none` models a
JS `undefined` field, which is skipped (the column keeps its value). -/
structure MessageUpdates where
  id : Option String
  timestamp : Option Millis
  badges : Option (List String)
  isFirstMessage : Option Bool
  isReturningChatter : Option Bool
  isHighlighted : Option Bool
  bits : Option Nat
  replyParentMessageId : Option String
  emoteOffsets : Option String
deriving Repr, DecidableEq

/-- Apply a `SET` list to one row.  `bits`, `replyParentMessageId` and
`emoteOffsets` additionally coalesce falsy values to `NULL`; `message`,
`color`, `userId`, `channelId` and `isDeleted` are never updated. -/
def applyUpdates (u : MessageUpdates) (r : MessageRow) : MessageRow :=
  { r with
    id := u.id.getD r.id,
    timestamp := u.timestamp.getD r.timestamp,
    badges := u.badges.getD r.badges,
    isFirstMessage := u.isFirstMessage.getD r.isFirstMessage,
    isReturningChatter := u.isReturningChatter.getD r.isReturningChatter,
    isHighlighted := u.isHighlighted.getD r.isHighlighted,
    bits := match u.bits with
      | some b => orNullNat (some b)
      | none => r.bits,
    replyParentMessageId := match u.replyParentMessageId with
      | some s => orNullStr (some s)
      | none => r.replyParentMessageId,
    emoteOffsets := match u.emoteOffsets with
      | some s => orNullStr (some s)
      | none => r.emoteOffsets }

/-- `DatabaseService.updateMessage`: `UPDATE messages SET ... WHERE id = ?`.
When the update would move the primary key onto an id another row already
holds, SQLite rejects the statement and the caller catches the error, leaving
the store unchanged. -/
def updateMessage (st : Store) (oldId : String) (u : MessageUpdates) : Store :=
  let clash := match u.id with
    | some newId => newId != oldId && st.messages.any (fun r => r.id == newId)
    | none => false
  if clash then st
  else { st with messages := st.messages.map (fun r =>
    if r.id == oldId then applyUpdates u r else r) }

/-- The per-row effect of `markMessageAsDeleted`. -/
def rowDeleteFlag (messageId : String) (r : MessageRow) : MessageRow :=
  if r.id == messageId then { r with isDeleted := true } else r

/-- `DatabaseService.markMessageAsDeleted`: `UPDATE messages SET isDeleted = 1`. -/
def markMessageAsDeleted (st : Store) (messageId : String) : Store :=
  { st with messages := st.messages.map (rowDeleteFlag messageId) }

/-- `DatabaseService.getMessageCountByUserId`: `COUNT(*)` over one user's rows
in a channel — no `isDeleted` filter, soft-deleted rows are included. -/
def getMessageCountByUserId (st : Store) (userId channelId : String) : Nat :=
  (st.messages.filter (fun r => r.userId == userId && r.channelId == channelId)).length

/-- A row of the `SELECT ... INNER JOIN viewers` in `getRecentMessages`
(`DbChatMessage` plus the joined `username`/`displayName`). -/
structure DbChatMessage where
  id : String
  userId : String
  channelId : String
  username : String
  displayName : String
  message : String
  timestamp : Millis
  color : Option String
  badges : List String
  isFirstMessage : Bool
  isReturningChatter : Bool
  isHighlighted : Bool
  bits : Option Nat
  replyParentMessageId : Option String
  emoteOffsets : Option String
  isDeleted : Bool
deriving Repr, DecidableEq

/-- The flip `markMessageAsDeleted` induces on a fetched (joined) row. -/
def dbDeleteFlag (messageId : String) (x : DbChatMessage) : DbChatMessage :=
  if x.id == messageId then { x with isDeleted := true } else x

/-- The `INNER JOIN viewers v ON m.userId = v.id` for one message row,
with the row-mapping (`|| undefined` coalescing) applied: `none` when the
user has no viewers entry, in which case the row is not returned at all. -/
def joinViewer (st : Store) (r : MessageRow) : Option DbChatMessage :=
  (st.viewers.find? (fun v => v.id == r.userId)).map (fun v =>
    { id := r.id, userId := r.userId, channelId := r.channelId,
      username := v.username, displayName := v.displayName, message := r.message,
      timestamp := r.timestamp, color := orNullStr r.color, badges := r.badges,
      isFirstMessage := r.isFirstMessage, isReturningChatter := r.isReturningChatter,
      isHighlighted := r.isHighlighted, bits := orNullNat r.bits,
      replyParentMessageId := orNullStr r.replyParentMessageId,
      emoteOffsets := orNullStr r.emoteOffsets, isDeleted := r.isDeleted })

/-- `DatabaseService.getRecentMessages`: join with `viewers`, filter by
channel, `ORDER BY timestamp DESC LIMIT limit`, then `rows.reverse()` so the
caller receives oldest-first chronological order. -/
def getRecentMessages (st : Store) (channelId : String) (limit : Nat) : List DbChatMessage :=
  let joined := (st.messages.filter (fun r => r.channelId == channelId)).filterMap (joinViewer st)
  ((sortByDesc (fun d => d.timestamp) joined).take limit).reverse

/-- The `|| undefined` row mapping of `getRecentSubscriptions` and the
`|| null` argument coalescing of `insertSubscription` (the same falsy-field
normalisation). -/
def SubscriptionEvent.normalize (s : SubscriptionEvent) : SubscriptionEvent :=
  { s with
    message := orNullStr s.message,
    cumulativeMonths := orNullNat s.cumulativeMonths,
    streakMonths := orNullNat s.streakMonths,
    durationMonths := orNullNat s.durationMonths,
    gifterUserId := orNullStr s.gifterUserId,
    amount := orNullNat s.amount }

/-- `DatabaseService.insertSubscription`: `ON CONFLICT(id) DO NOTHING`. -/
def insertSubscription (st : Store) (s : SubscriptionEvent) : Store :=
  if st.subscriptions.any (fun row => row.id == s.id) then st
  else { st with subscriptions := st.subscriptions ++ [s.normalize] }

/-- `DatabaseService.getRecentSubscriptions`: filter by channel,
`ORDER BY timestamp DESC LIMIT limit`, reverse to oldest-first. -/
def getRecentSubscriptions (st : Store) (channelId : String) (limit : Nat) :
    List SubscriptionEvent :=
  let rows := st.subscriptions.filter (fun s => s.channelId == channelId)
  (((sortByDesc (fun s => s.timestamp) rows).take limit).reverse).map SubscriptionEvent.normalize

/-- `useChatStore.loadFromDatabase`'s conversion of a fetched row back into a
`ChatMessage` for the view. -/
def dbMessageToChatMessage (d : DbChatMessage) : ChatMessage :=
  { id := d.id, username := d.username, userId := d.userId, displayName := d.displayName,
    message := d.message, timestamp := d.timestamp, color := d.color, badges := d.badges,
    isFirstMessage := d.isFirstMessage, isReturningChatter := d.isReturningChatter,
    isHighlighted := d.isHighlighted, bits := d.bits,
    replyParentMessageId := d.replyParentMessageId, emoteOffsets := d.emoteOffsets,
    isDeleted := d.isDeleted }

/-- `useChatStore.loadFromDatabase`: fetch the 100 most recent messages and
subscriptions, convert, concatenate, and sort ascending by timestamp.  This is
the replay that rebuilds the ordered view from the store after a restart. -/
def loadFromDatabase (st : Store) (channelId : String) : List ChatItem :=
  let items :=
    (getRecentMessages st channelId 100).map (fun d => ChatItem.message (dbMessageToChatMessage d))
      ++ (getRecentSubscriptions st channelId 100).map ChatItem.subscription
  sortByAsc (fun item => item.timestamp) items

/-! ## Engine glue (`TwitchChatService` + renderer wiring)

`observe` is the `chatClient.onMessage` handler of
`TwitchChatService.connect`: upsert the author's viewer entry, then either
reconcile a recent `self-` row (`findRecentSelfMessage` within 2000 ms +
`updateMessage`) or insert the row, and feed the message to the ordered view
(`addMessage`).  `sendLocal` is `TwitchChatService.sendMessage`: build a
`self-` message, insert it (no viewer upsert on this path), feed the view.
`observeDeletion` is the EventSub deletion handler: `deleteMessage` on the
view plus `markMessageAsDeleted` on the store.  `observeSubscription` is the
subscription handler: `addSubscription` plus `insertSubscription`. -/

/-- The authenticated session (current user and connected channel), read-only
context for the engine. -/
structure SessionContext where
  currentUserId : String
  currentUserName : String
  currentUserDisplayName : String
  currentUserColor : Option String
  channelId : String
deriving Repr, DecidableEq

/-- Live engine state: the in-memory ordered view plus the durable store. -/
structure EngineState where
  view : List ChatItem
  store : Store
deriving Repr, DecidableEq

def EngineState.empty : EngineState := ⟨[], Store.empty⟩

/-- The `insertMessage` argument built from an incoming `ChatMessage`
(`{...chatMessage, userId, channelId, badges}`). -/
def ChatMessage.toInsert (m : ChatMessage) (channelId : String) : MessageInsert :=
  { id := m.id, userId := m.userId, channelId := channelId, message := m.message,
    timestamp := m.timestamp, color := m.color, badges := m.badges,
    isFirstMessage := m.isFirstMessage, isReturningChatter := m.isReturningChatter,
    isHighlighted := m.isHighlighted, bits := m.bits,
    replyParentMessageId := m.replyParentMessageId, emoteOffsets := m.emoteOffsets }

/-- The `updateMessage` argument built from a confirmed echo (the body,
`color`, `userId` and `channelId` are not part of the update; `bits`,
`replyParentMessageId` and `emoteOffsets` are skipped when `undefined`). -/
def ChatMessage.toUpdates (m : ChatMessage) : MessageUpdates :=
  { id := some m.id, timestamp := some m.timestamp, badges := some m.badges,
    isFirstMessage := some m.isFirstMessage, isReturningChatter := some m.isReturningChatter,
    isHighlighted := some m.isHighlighted, bits := m.bits,
    replyParentMessageId := m.replyParentMessageId, emoteOffsets := m.emoteOffsets }

/-- The live-stream message handler.  `now` is the wall clock at arrival (the
handler stamps the message with `new Date()` at the same moment). -/
def observe (ctx : SessionContext) (es : EngineState) (m : ChatMessage) (now : Millis) :
    EngineState :=
  let st1 := upsertViewer es.store m.userId m.username m.displayName
  let st2 :=
    if m.userId == ctx.currentUserId then
      match findRecentSelfMessage st1 m.userId ctx.channelId m.message 2000 now with
      | some pendingId => updateMessage st1 pendingId m.toUpdates
      | none => insertMessage st1 (m.toInsert ctx.channelId)
    else insertMessage st1 (m.toInsert ctx.channelId)
  { view := addMessage es.view m, store := st2 }

/-- The optimistic local echo built by `TwitchChatService.sendMessage`: id
`self-${Date.now()}-${nonce}`, the sender's own identity and colour, empty
flags, no emotes. -/
def mkSelfMessage (ctx : SessionContext) (body : String) (badges : List String)
    (now : Millis) (nonce : String) : ChatMessage :=
  { id := "self-" ++ (toString now ++ "-" ++ nonce), username := ctx.currentUserName,
    userId := ctx.currentUserId, displayName := ctx.currentUserDisplayName,
    message := body, timestamp := now, color := ctx.currentUserColor, badges := badges,
    isFirstMessage := false, isReturningChatter := false, isHighlighted := false,
    bits := none, replyParentMessageId := none, emoteOffsets := none, isDeleted := false }

/-- `TwitchChatService.sendMessage`: insert the local-pending row (with
`emoteOffsets: null`) and append the message to the view.  Note: no viewer
upsert happens on this path. -/
def sendLocal (ctx : SessionContext) (es : EngineState) (body : String)
    (badges : List String) (now : Millis) (nonce : String) : EngineState :=
  let m := mkSelfMessage ctx body badges now nonce
  { view := addMessage es.view m,
    store := insertMessage es.store (m.toInsert ctx.channelId) }

/-- The EventSub message-deletion handler: flag the view entry and the row. -/
def observeDeletion (es : EngineState) (messageId : String) : EngineState :=
  { view := deleteMessage es.view messageId,
    store := markMessageAsDeleted es.store messageId }

/-- The subscription-event handler: append to view, insert the row. -/
def observeSubscription (es : EngineState) (s : SubscriptionEvent) : EngineState :=
  { view := addSubscription es.view s,
    store := insertSubscription es.store s }

/-- One live input to the engine, for reasoning about whole traces. -/
inductive EngineOp where
  | obsMsg (m : ChatMessage)
  | obsSub (s : SubscriptionEvent)
  | obsDel (messageId : String)
deriving Repr, DecidableEq

def applyOp (ctx : SessionContext) (es : EngineState) : EngineOp → EngineState
  | .obsMsg m => observe ctx es m m.timestamp
  | .obsSub s => observeSubscription es s
  | .obsDel i => observeDeletion es i

def applyOps (ctx : SessionContext) (es : EngineState) : List EngineOp → EngineState
  | [] => es
  | op :: ops => applyOps ctx (applyOp ctx es op) ops

/-! ## Shared concrete fixtures (used by witnesses and counterexamples) -/

/-- A chat message with the optional fields empty. -/
def mkMsg (id username userId displayName body : String) (ts : Millis) : ChatMessage :=
  ⟨id, username, userId, displayName, body, ts, none, [], false, false, false, none, none, none, false⟩

/-- A session: local user `me` (handle `memod`), connected to channel `chan`. -/
def ctxA : SessionContext := ⟨"me", "memod", "Me", none, "chan"⟩

/-! ## General helper lemmas -/

theorem set_append_singleton {α : Type} (l : List α) (a b : α) :
    (l ++ [a]).set l.length b = l ++ [b] := by
  induction l with
  | nil => rfl
  | cons c l ih => simp [List.set_cons_succ, ih]

/-- The id of a `self-` string never coincides with a non-`self-` string. -/
theorem ne_of_strStartsWith (a b : String)
    (ha : strStartsWith a "self-" = true) (hb : strStartsWith b "self-" = false) : a ≠ b := by
  intro h
  rw [h, hb] at ha
  exact Bool.false_ne_true ha

/-! ## C5 — idempotent insert -/

/-- C5: `insertEvent` is idempotent: re-inserting an event with the same id is
a no-op (`ON CONFLICT(id) DO NOTHING`), and when the id was fresh the store
gains exactly one row for it, carrying the fields written by the first
insert. -/
theorem insertMessage_idempotent (st : Store) (m : MessageInsert) :
    insertMessage (insertMessage st m) m = insertMessage st m ∧
      (st.messages.countP (fun row => row.id == m.id) = 0 →
        (insertMessage st m).messages.countP (fun row => row.id == m.id) = 1 ∧
          (insertMessage st m).messages = st.messages ++ [m.toRow]) := by
  constructor
  · by_cases h : st.messages.any (fun row => row.id == m.id) = true
    · simp [insertMessage, h]
    · rw [Bool.not_eq_true] at h
      simp [insertMessage, h, MessageInsert.toRow]
  · intro h0
    have hany : st.messages.any (fun row => row.id == m.id) = false := by
      rw [List.any_eq_false]
      intro r hr
      have := List.countP_eq_zero.mp h0 r hr
      simpa using this
    have hins : (insertMessage st m).messages = st.messages ++ [m.toRow] := by
      rw [insertMessage, if_neg (by simp [hany])]
    refine ⟨?_, hins⟩
    rw [hins, List.countP_append, h0, List.countP_cons, List.countP_nil]
    simp [MessageInsert.toRow]

/-- Witness for C5 at a concrete store and event. -/
theorem insertMessage_idempotent_witness :
    (Store.empty.messages.countP
        (fun row => row.id == (ChatMessage.toInsert (mkMsg "e1" "alice" "u1" "A" "hi" 7) "chan").id)
      = 0) ∧
      (insertMessage Store.empty (ChatMessage.toInsert (mkMsg "e1" "alice" "u1" "A" "hi" 7) "chan")).messages.countP
        (fun row => row.id == (ChatMessage.toInsert (mkMsg "e1" "alice" "u1" "A" "hi" 7) "chan").id) = 1 :=
  ⟨by decide,
    ((insertMessage_idempotent Store.empty
      (ChatMessage.toInsert (mkMsg "e1" "alice" "u1" "A" "hi" 7) "chan")).2 (by decide)).1⟩

/-! ## C8 — countByUser includes soft-deleted rows -/

/-- C8: `countByUser` counts soft-deleted rows too: flagging any event as
deleted leaves every user's per-channel count unchanged (the `COUNT(*)` has no
`isDeleted` filter and `markMessageAsDeleted` only flips that flag). -/
theorem countByUser_markDeleted (st : Store) (x userId channelId : String) :
    getMessageCountByUserId (markMessageAsDeleted st x) userId channelId =
      getMessageCountByUserId st userId channelId := by
  unfold getMessageCountByUserId markMessageAsDeleted
  simp only [← List.countP_eq_length_filter, List.countP_map]
  refine List.countP_congr ?_
  intro r _
  show ((fun s => s.userId == userId && s.channelId == channelId)
      (rowDeleteFlag x r)) = true ↔ _
  rw [rowDeleteFlag]
  by_cases h : (r.id == x) = true
  · rw [if_pos h]
  · rw [if_neg h]

/-! ## C9 — read watermark -/

/-- C9: after `markRead(eventId)` for an id present in the ordered view, the
watermark equals that id, the view itself is untouched, and at render time an
event is read exactly when its index is at or before the watermark's index. -/
theorem markAsRead_watermark (st : ViewState) (eventId : String) (j : Nat)
    (h : st.messages.findIdx? (fun it => it.id == eventId) = some j) :
    (markAsRead st eventId).lastReadMessageId = some eventId ∧
      (markAsRead st eventId).messages = st.messages ∧
      ∀ index : Nat, isRead st.messages (some eventId) index = decide (index ≤ j) := by
  refine ⟨?_, ?_, ?_⟩
  · rw [markAsRead, h]
  · rw [markAsRead, h]
  · intro index
    simp only [isRead, lastReadIndex, h]
    rw [decide_eq_true (Int.natCast_nonneg j), Bool.true_and]
    exact decide_eq_decide.mpr Nat.cast_le

/-- Witness for C9 on a two-element view with the watermark on the second
entry. -/
theorem markAsRead_watermark_witness :
    ([ChatItem.message (mkMsg "a1" "alice" "u1" "A" "hi" 1),
        ChatItem.message (mkMsg "b2" "bob" "u2" "B" "yo" 2)].findIdx?
          (fun it => it.id == "b2") = some 1) ∧
      (markAsRead ⟨[ChatItem.message (mkMsg "a1" "alice" "u1" "A" "hi" 1),
        ChatItem.message (mkMsg "b2" "bob" "u2" "B" "yo" 2)], none⟩ "b2").lastReadMessageId
        = some "b2" :=
  ⟨by decide,
    (markAsRead_watermark ⟨[ChatItem.message (mkMsg "a1" "alice" "u1" "A" "hi" 1),
        ChatItem.message (mkMsg "b2" "bob" "u2" "B" "yo" 2)], none⟩ "b2" 1 (by decide)).1⟩

/-! ## C10 — a `self-` id is never the confirmed side of a merge -/

/-- C10: an incoming message whose id carries the local-pending marker is
either discarded as an exact-id duplicate or appended — it never replaces an
existing entry — and two local sends with identical bodies within the merge
window yield two distinct entries. -/
theorem addMessage_selfId_append (msgs : List ChatItem) (m m1 m2 : ChatMessage)
    (hm : strStartsWith m.id "self-" = true)
    (hm1 : strStartsWith m1.id "self-" = true)
    (hm2 : strStartsWith m2.id "self-" = true) :
    (msgs.any (fun it => it.id == m.id) = true → addMessage msgs m = msgs) ∧
      (msgs.any (fun it => it.id == m.id) = false →
        addMessage msgs m = msgs ++ [ChatItem.message m]) ∧
      (msgs.any (fun it => it.id == m1.id) = false →
        msgs.any (fun it => it.id == m2.id) = false → m1.id ≠ m2.id →
        addMessage (addMessage msgs m1) m2 =
          msgs ++ [ChatItem.message m1, ChatItem.message m2]) := by
  refine ⟨?_, ?_, ?_⟩
  · intro hdup
    rw [addMessage, if_pos hdup]
  · intro hfresh
    rw [addMessage, if_neg (by simp [hfresh]), if_pos hm]
  · intro h1 h2 hne
    have e1 : addMessage msgs m1 = msgs ++ [ChatItem.message m1] := by
      rw [addMessage, if_neg (by simp [h1]), if_pos hm1]
    rw [e1]
    have h2' : (msgs ++ [ChatItem.message m1]).any (fun it => it.id == m2.id) = false := by
      simp only [List.any_append, h2, Bool.false_or, List.any_cons, List.any_nil,
        Bool.or_false]
      simpa [ChatItem.id] using hne
    rw [addMessage, if_neg (by simp [h2']), if_pos hm2, List.append_assoc]
    rfl

/-- Witness for C10: two identical local sends milliseconds apart both remain
in the view. -/
theorem addMessage_selfId_append_witness :
    addMessage (addMessage [] (mkMsg "self-5-a" "memod" "me" "Me" "dup" 100))
        (mkMsg "self-6-b" "memod" "me" "Me" "dup" 200) =
      [ChatItem.message (mkMsg "self-5-a" "memod" "me" "Me" "dup" 100),
        ChatItem.message (mkMsg "self-6-b" "memod" "me" "Me" "dup" 200)] :=
  (addMessage_selfId_append [] (mkMsg "self-5-a" "memod" "me" "Me" "dup" 100)
      (mkMsg "self-5-a" "memod" "me" "Me" "dup" 100)
      (mkMsg "self-6-b" "memod" "me" "Me" "dup" 200)
      (by decide) (by decide) (by decide)).2.2 (by decide) (by decide) (by decide)

/-! ## C7 — recentEvents ordering contract -/

/-- The joined per-channel row set that `getRecentMessages` fetches from. -/
def joinedRows (st : Store) (channelId : String) : List DbChatMessage :=
  (st.messages.filter (fun r => r.channelId == channelId)).filterMap (joinViewer st)

theorem joinViewer_channelId {st : Store} {r : MessageRow} {d : DbChatMessage}
    (h : joinViewer st r = some d) : d.channelId = r.channelId ∧ d.timestamp = r.timestamp := by
  rw [joinViewer] at h
  rcases Option.map_eq_some'.mp h with ⟨v, _, hd⟩
  rw [← hd]
  exact ⟨rfl, rfl⟩

theorem mem_joinedRows_channel {st : Store} {channelId : String} {d : DbChatMessage}
    (h : d ∈ joinedRows st channelId) : d.channelId = channelId := by
  rcases List.mem_filterMap.mp h with ⟨r, hr, hjoin⟩
  rcases List.mem_filter.mp hr with ⟨_, hch⟩
  rw [(joinViewer_channelId hjoin).1]
  exact eq_of_beq hch

/-- C7: `recentEvents` is the descending-by-timestamp fetch of `limit` rows,
reversed; consequently the result is in ascending chronological order, it has
`limit` entries whenever that many are available, every returned row belongs
to the requested channel, and every fetchable row that was left out is no
newer than anything returned ("the most recent `limit` events"). -/
theorem getRecentMessages_ordering (st : Store) (channelId : String) (limit : Nat) :
    (getRecentMessages st channelId limit =
      ((sortByDesc (fun d => d.timestamp) (joinedRows st channelId)).take limit).reverse) ∧
      (getRecentMessages st channelId limit).Pairwise (fun a b => a.timestamp ≤ b.timestamp) ∧
      (getRecentMessages st channelId limit).length = min limit (joinedRows st channelId).length ∧
      (∀ d ∈ getRecentMessages st channelId limit, d.channelId = channelId) ∧
      (∀ d ∈ joinedRows st channelId, d ∉ getRecentMessages st channelId limit →
        ∀ e ∈ getRecentMessages st channelId limit, d.timestamp ≤ e.timestamp) := by
  have hdef : getRecentMessages st channelId limit =
      ((sortByDesc (fun d => d.timestamp) (joinedRows st channelId)).take limit).reverse := rfl
  have hsorted := sortByDesc_pairwise (fun d => d.timestamp) (joinedRows st channelId)
  have hmem_res : ∀ d, d ∈ getRecentMessages st channelId limit ↔
      d ∈ (sortByDesc (fun d => d.timestamp) (joinedRows st channelId)).take limit := by
    intro d
    rw [hdef, List.mem_reverse]
  refine ⟨hdef, ?_, ?_, ?_, ?_⟩
  · rw [hdef, List.pairwise_reverse]
    exact List.Pairwise.sublist (List.take_sublist limit _) hsorted
  · rw [hdef, List.length_reverse, List.length_take,
      List.Perm.length_eq (sortByDesc_perm (fun d : DbChatMessage => d.timestamp)
        (joinedRows st channelId))]
  · intro d hd
    have : d ∈ joinedRows st channelId :=
      (sortByDesc_perm (fun d : DbChatMessage => d.timestamp) _).mem_iff.mp
        (List.Sublist.mem ((hmem_res d).mp hd) (List.take_sublist limit _))
    exact mem_joinedRows_channel this
  · intro d hd hnot e he
    have hd_sorted : d ∈ sortByDesc (fun d => d.timestamp) (joinedRows st channelId) :=
      (sortByDesc_perm (fun d => d.timestamp) _).mem_iff.mpr hd
    have hd_drop : d ∈ (sortByDesc (fun d : DbChatMessage => d.timestamp)
        (joinedRows st channelId)).drop limit := by
      have h3 := List.take_append_drop limit
        (sortByDesc (fun d : DbChatMessage => d.timestamp) (joinedRows st channelId))
      rcases List.mem_append.mp (h3 ▸ hd_sorted) with h1 | h2
      · exact absurd ((hmem_res d).mpr h1) hnot
      · exact h2
    have hcross := (List.pairwise_append.mp
      ((List.take_append_drop limit
        (sortByDesc (fun d : DbChatMessage => d.timestamp) (joinedRows st channelId))).symm ▸
          hsorted)).2.2
    exact hcross e ((hmem_res e).mp he) d hd_drop

/-! ## C1 — reconciliation replaces, never duplicates -/

/-- C1: `sendLocal(body)` appends a local-pending entry at the end of the
view; a confirmed echo from the same user with the exact same body arriving
within the merge window replaces that entry in place: afterwards the view is
the original view plus exactly one entry for the message, carrying the
confirmed id and fields, at the position the local-pending entry held, and
the pending id is gone. -/
theorem sendLocal_observe_reconciles (ctx : SessionContext) (es : EngineState)
    (body : String) (badges : List String) (now now2 : Millis) (nonce : String)
    (m : ChatMessage)
    (hpending_fresh : ∀ it ∈ es.view, it.id ≠ (mkSelfMessage ctx body badges now nonce).id)
    (hm_fresh : ∀ it ∈ es.view, it.id ≠ m.id)
    (hm_notself : strStartsWith m.id "self-" = false)
    (hm_user : m.username = ctx.currentUserName)
    (hm_body : m.message = body)
    (hwindow : (now - m.timestamp).natAbs < 2000)
    (hnoprior : ∀ it ∈ es.view, selfEchoMatch m it = false) :
    (sendLocal ctx es body badges now nonce).view
        = es.view ++ [ChatItem.message (mkSelfMessage ctx body badges now nonce)] ∧
      (observe ctx (sendLocal ctx es body badges now nonce) m now2).view
        = es.view ++ [ChatItem.message m] ∧
      (observe ctx (sendLocal ctx es body badges now nonce) m now2).view.countP
        (fun it => it.id == m.id) = 1 ∧
      ∀ it ∈ (observe ctx (sendLocal ctx es body badges now nonce) m now2).view,
        it.id ≠ (mkSelfMessage ctx body badges now nonce).id := by
  set p := mkSelfMessage ctx body badges now nonce with hp
  have hselfp : strStartsWith p.id "self-" = true :=
    strStartsWith_append (toString now ++ "-" ++ nonce) "self-"
  have hanyp : es.view.any (fun it => it.id == p.id) = false := by
    rw [List.any_eq_false]
    intro it hit
    simpa using hpending_fresh it hit
  have hstep1 : (sendLocal ctx es body badges now nonce).view
      = es.view ++ [ChatItem.message p] := by
    show addMessage es.view p = es.view ++ [ChatItem.message p]
    rw [addMessage, if_neg (by simp [hanyp]), if_pos hselfp]
  have hne_pm : p.id ≠ m.id := ne_of_strStartsWith p.id m.id hselfp hm_notself
  have hanym : (es.view ++ [ChatItem.message p]).any (fun it => it.id == m.id) = false := by
    rw [List.any_eq_false]
    intro it hit
    rcases List.mem_append.mp hit with h1 | h1
    · simpa using hm_fresh it h1
    · rcases List.mem_singleton.mp h1 with rfl
      simpa [ChatItem.id] using hne_pm
  have hmatchp : selfEchoMatch m (ChatItem.message p) = true := by
    rw [selfEchoMatch]
    have h1 : p.username == m.username := by rw [hm_user]; exact beq_self_eq_true _
    have h2 : p.message == m.message := by rw [hm_body]; exact beq_self_eq_true _
    have h3 : decide ((p.timestamp - m.timestamp).natAbs < 5000) = true :=
      decide_eq_true (by show ((now : Millis) - m.timestamp).natAbs < 5000; omega)
    rw [hselfp, h1, h2, h3]
    rfl
  have hfind : (es.view ++ [ChatItem.message p]).findIdx? (selfEchoMatch m)
      = some es.view.length := by
    rw [List.findIdx?_append]
    have h1 : es.view.findIdx? (selfEchoMatch m) = none := by
      rw [List.findIdx?_eq_none_iff]
      exact hnoprior
    have h2 : [ChatItem.message p].findIdx? (selfEchoMatch m) = some 0 := by
      rw [List.findIdx?_cons, if_pos hmatchp]
    rw [h1, h2]
    simp
  have hstep2 : (observe ctx (sendLocal ctx es body badges now nonce) m now2).view
      = es.view ++ [ChatItem.message m] := by
    show addMessage (sendLocal ctx es body badges now nonce).view m = _
    rw [hstep1, addMessage, if_neg (by simp [hanym]), if_neg (by simp [hm_notself]), hfind]
    exact set_append_singleton es.view (ChatItem.message p) (ChatItem.message m)
  refine ⟨hstep1, hstep2, ?_, ?_⟩
  · have h0 : es.view.countP (fun it => it.id == m.id) = 0 := by
      rw [List.countP_eq_zero]
      intro it hit
      simpa using hm_fresh it hit
    rw [hstep2, List.countP_append, h0, List.countP_cons, List.countP_nil]
    simp [ChatItem.id]
  · intro it hit
    rw [hstep2] at hit
    rcases List.mem_append.mp hit with h1 | h1
    · exact hpending_fresh it h1
    · rcases List.mem_singleton.mp h1 with rfl
      exact Ne.symm hne_pm

/-- Witness for C1: `sendLocal "hello"` at t=0 followed by the confirmed echo
`srv-1` at t=300 leaves a single entry with the confirmed id at the pending
entry's position. -/
theorem sendLocal_observe_reconciles_witness :
    (observe ctxA (sendLocal ctxA EngineState.empty "hello" [] 0 "w")
        (mkMsg "srv-1" "memod" "me" "Me" "hello" 300) 300).view
      = EngineState.empty.view ++ [ChatItem.message (mkMsg "srv-1" "memod" "me" "Me" "hello" 300)] :=
  (sendLocal_observe_reconciles ctxA EngineState.empty "hello" [] 0 300 "w"
      (mkMsg "srv-1" "memod" "me" "Me" "hello" 300)
      (by decide) (by decide) (by decide) (by decide) (by decide) (by decide)
      (by decide)).2.1

/-! ## C3 — the merge window -/

/-- C3 counterexample: a confirmed echo whose timestamp differs from the
local-pending entry by 3000 ms — outside the claimed fixed 2-second window —
is still merged by the ordered view (the pending entry is replaced in place,
nothing is appended): the view-level tolerance is 5000 ms, not 2000 ms. -/
theorem addMessage_merge_outside_2s :
    (((mkMsg "self-1" "memod" "me" "Me" "hello" 0).timestamp -
        (mkMsg "srv-1" "memod" "me" "Me" "hello" 3000).timestamp).natAbs > 2000) ∧
      addMessage [ChatItem.message (mkMsg "self-1" "memod" "me" "Me" "hello" 0)]
          (mkMsg "srv-1" "memod" "me" "Me" "hello" 3000)
        = [ChatItem.message (mkMsg "srv-1" "memod" "me" "Me" "hello" 3000)] := by
  constructor
  · decide
  · decide

/-- C3 amended: the ordered-view merge condition is: the incoming message is
not an exact-id duplicate, does not itself carry a `self-` id, and some view
entry is a chat message with a `self-` id, the same username, the exact same
body, and a timestamp within strictly less than 5000 ms; the first such entry
is replaced in place.  When no entry qualifies, the message is appended.  The
store-side reconciliation query (`findRecentSelfMessage`, called with
`withinMs = 2000`) separately matches exactly the `self-` rows of that
user/channel with the exact body and `timestamp > now - 2000`. -/
theorem addMessage_mergeWindow (msgs : List ChatItem) (m : ChatMessage) (i : Nat)
    (hdup : msgs.any (fun it => it.id == m.id) = false)
    (hnotself : strStartsWith m.id "self-" = false) :
    (∀ p : ChatMessage,
      selfEchoMatch m (ChatItem.message p) =
        (strStartsWith p.id "self-" && p.username == m.username && p.message == m.message &&
          decide ((p.timestamp - m.timestamp).natAbs < 5000))) ∧
      (∀ s : SubscriptionEvent, selfEchoMatch m (ChatItem.subscription s) = false) ∧
      (msgs.findIdx? (selfEchoMatch m) = some i →
        addMessage msgs m = msgs.set i (ChatItem.message m)) ∧
      (msgs.findIdx? (selfEchoMatch m) = none →
        addMessage msgs m = msgs ++ [ChatItem.message m]) ∧
      (∀ (st : Store) (uid ch text : String) (now : Millis),
        (findRecentSelfMessage st uid ch text 2000 now).isSome = true ↔
          ∃ r ∈ st.messages,
            (r.userId == uid && r.channelId == ch && r.message == text &&
              strStartsWith r.id "self-" && decide (now - 2000 < r.timestamp)) = true) := by
  refine ⟨fun p => rfl, fun s => rfl, ?_, ?_, ?_⟩
  · intro hsome
    rw [addMessage, if_neg (by simp [hdup]), if_neg (by simp [hnotself]), hsome]
  · intro hnone
    rw [addMessage, if_neg (by simp [hdup]), if_neg (by simp [hnotself]), hnone]
  · intro st uid ch text now
    simp only [findRecentSelfMessage, Option.isSome_map']
    rw [List.head?_isSome]
    constructor
    · intro hne
      have hlen : (st.messages.filter (fun r =>
          r.userId == uid && r.channelId == ch && r.message == text &&
            strStartsWith r.id "self-" && decide (now - 2000 < r.timestamp))) ≠ [] := by
        intro hnil
        rw [hnil] at hne
        exact hne rfl
      rcases List.exists_mem_of_ne_nil _ hlen with ⟨r, hr⟩
      rcases List.mem_filter.mp hr with ⟨hrm, hrp⟩
      exact ⟨r, hrm, hrp⟩
    · rintro ⟨r, hrm, hrp⟩
      have hr : r ∈ st.messages.filter (fun r =>
          r.userId == uid && r.channelId == ch && r.message == text &&
            strStartsWith r.id "self-" && decide (now - 2000 < r.timestamp)) :=
        List.mem_filter.mpr ⟨hrm, hrp⟩
      have : r ∈ sortByDesc (fun r : MessageRow => r.timestamp)
          (st.messages.filter (fun r =>
            r.userId == uid && r.channelId == ch && r.message == text &&
              strStartsWith r.id "self-" && decide (now - 2000 < r.timestamp))) :=
        (sortByDesc_perm (fun r : MessageRow => r.timestamp) _).mem_iff.mpr hr
      exact List.ne_nil_of_mem this

/-- Witness for C3's amended theorem: a 4.9-second-old pending entry is still
merged (view tolerance), while the store query with its 2-second cutoff
already rejects it. -/
theorem addMessage_mergeWindow_witness :
    addMessage [ChatItem.message (mkMsg "self-1" "memod" "me" "Me" "hello" 0)]
        (mkMsg "srv-1" "memod" "me" "Me" "hello" 4900)
      = [ChatItem.message (mkMsg "self-1" "memod" "me" "Me" "hello" 0)].set 0
          (ChatItem.message (mkMsg "srv-1" "memod" "me" "Me" "hello" 4900)) :=
  (addMessage_mergeWindow [ChatItem.message (mkMsg "self-1" "memod" "me" "Me" "hello" 0)]
      (mkMsg "srv-1" "memod" "me" "Me" "hello" 4900) 0 (by decide) (by decide)).2.2.1
    (by decide)

/-! ## Store framing helper lemmas -/

theorem insertMessage_viewers (st : Store) (m : MessageInsert) :
    (insertMessage st m).viewers = st.viewers := by
  rw [insertMessage]; split <;> rfl

theorem insertMessage_subscriptions (st : Store) (m : MessageInsert) :
    (insertMessage st m).subscriptions = st.subscriptions := by
  rw [insertMessage]; split <;> rfl

theorem updateMessage_viewers (st : Store) (oldId : String) (u : MessageUpdates) :
    (updateMessage st oldId u).viewers = st.viewers := by
  rw [updateMessage]; split <;> rfl

theorem updateMessage_subscriptions (st : Store) (oldId : String) (u : MessageUpdates) :
    (updateMessage st oldId u).subscriptions = st.subscriptions := by
  rw [updateMessage]; split <;> rfl

theorem upsertViewer_messages (st : Store) (i u d : String) :
    (upsertViewer st i u d).messages = st.messages := by
  rw [upsertViewer]; split <;> rfl

theorem upsertViewer_subscriptions (st : Store) (i u d : String) :
    (upsertViewer st i u d).subscriptions = st.subscriptions := by
  rw [upsertViewer]; split <;> rfl

theorem insertSubscription_messages (st : Store) (s : SubscriptionEvent) :
    (insertSubscription st s).messages = st.messages := by
  rw [insertSubscription]; split <;> rfl

theorem insertSubscription_viewers (st : Store) (s : SubscriptionEvent) :
    (insertSubscription st s).viewers = st.viewers := by
  rw [insertSubscription]; split <;> rfl

/-- After an upsert, a viewer entry with the upserted id exists. -/
theorem upsertViewer_any_self (st : Store) (i u d : String) :
    (upsertViewer st i u d).viewers.any (fun v => v.id == i) = true := by
  rw [upsertViewer]
  split
  · rename_i h
    rw [List.any_eq_true] at h ⊢
    rcases h with ⟨v, hv, hvi⟩
    refine ⟨if v.id == i then { v with username := u, displayName := d } else v,
      List.mem_map_of_mem _ hv, ?_⟩
    rw [if_pos hvi]
    exact hvi
  · rw [List.any_eq_true]
    exact ⟨⟨i, u, d⟩, List.mem_append_right _ (List.mem_singleton_self _), by simp⟩

/-- Upserting never removes viewer ids. -/
theorem upsertViewer_any_mono (st : Store) (i u d j : String)
    (h : st.viewers.any (fun v => v.id == j) = true) :
    (upsertViewer st i u d).viewers.any (fun v => v.id == j) = true := by
  rw [upsertViewer]
  split
  · rw [List.any_eq_true] at h ⊢
    rcases h with ⟨v, hv, hvj⟩
    refine ⟨if v.id == i then { v with username := u, displayName := d } else v,
      List.mem_map_of_mem _ hv, ?_⟩
    by_cases hvi : (v.id == i) = true
    · rw [if_pos hvi]; exact hvj
    · rw [if_neg hvi]; exact hvj
  · rw [List.any_eq_true] at h ⊢
    rcases h with ⟨v, hv, hvj⟩
    exact ⟨v, List.mem_append_left _ hv, hvj⟩

/-! ## C4 — identity upsert before commit -/

/-- C4 counterexample: from an empty store, `sendLocal` durably commits a
message row for the local user while the viewers table stays empty — the
local-send path performs no identity upsert, so the claimed invariant fails
at the moment of that commit. -/
theorem sendLocal_missing_identity :
    ((sendLocal ctxA EngineState.empty "gg" [] 0 "x").store.messages.map
        (fun r => r.userId) = ["me"]) ∧
      (sendLocal ctxA EngineState.empty "gg" [] 0 "x").store.viewers = [] := by
  constructor
  · decide
  · decide

/-- C4 amended: on the `observe` path the author's identity is upserted
before the message write, so after any observe the author has a viewer entry
and the all-rows-have-identities invariant is preserved; the `sendLocal` path
performs no identity upsert at all (its store write leaves the viewers table
untouched), so a locally-sent message can be committed without an identity
entry. -/
theorem updateMessage_userId_mem (st : Store) (oldId : String) (u : MessageUpdates)
    (r : MessageRow) (hr : r ∈ (updateMessage st oldId u).messages) :
    ∃ r0 ∈ st.messages, r.userId = r0.userId := by
  rw [updateMessage] at hr
  split at hr
  · exact ⟨r, hr, rfl⟩
  · rcases List.mem_map.mp hr with ⟨r0, hr0, hr0eq⟩
    refine ⟨r0, hr0, ?_⟩
    rw [← hr0eq]
    split
    · rfl
    · rfl

theorem insertMessage_userId_mem (st : Store) (m : MessageInsert)
    (r : MessageRow) (hr : r ∈ (insertMessage st m).messages) :
    r ∈ st.messages ∨ r.userId = m.userId := by
  rw [insertMessage] at hr
  split at hr
  · exact Or.inl hr
  · rcases List.mem_append.mp hr with h1 | h1
    · exact Or.inl h1
    · rcases List.mem_singleton.mp h1 with rfl
      exact Or.inr rfl

/-- Every row of the store after an `observe` either descends from an
existing row (same author) or carries the observed message's author. -/
theorem observe_messages_userId (ctx : SessionContext) (es : EngineState)
    (m : ChatMessage) (now : Millis) (r : MessageRow)
    (hr : r ∈ (observe ctx es m now).store.messages) :
    (∃ r0 ∈ es.store.messages, r.userId = r0.userId) ∨ r.userId = m.userId := by
  revert hr
  simp only [observe]
  split
  · split
    · intro hr
      rcases updateMessage_userId_mem _ _ _ r hr with ⟨r0, hr0, he⟩
      rw [upsertViewer_messages] at hr0
      exact Or.inl ⟨r0, hr0, he⟩
    · intro hr
      rcases insertMessage_userId_mem _ _ r hr with h | h
      · rw [upsertViewer_messages] at h
        exact Or.inl ⟨r, h, rfl⟩
      · exact Or.inr h
  · intro hr
    rcases insertMessage_userId_mem _ _ r hr with h | h
    · rw [upsertViewer_messages] at h
      exact Or.inl ⟨r, h, rfl⟩
    · exact Or.inr h

/-- C4 amended: on the `observe` path the author's identity is upserted
before the message write, so after any observe the author has a viewer entry
and the all-rows-have-identities invariant is preserved; the `sendLocal` path
performs no identity upsert at all (its store write leaves the viewers table
untouched), so a locally-sent message can be committed without an identity
entry. -/
theorem observe_upserts_identity (ctx : SessionContext) (es : EngineState)
    (m : ChatMessage) (now : Millis) (body : String) (badges : List String) (nonce : String)
    (hInv : ∀ r ∈ es.store.messages,
      es.store.viewers.any (fun v => v.id == r.userId) = true) :
    ((observe ctx es m now).store.viewers.any (fun v => v.id == m.userId) = true) ∧
      (∀ r ∈ (observe ctx es m now).store.messages,
        (observe ctx es m now).store.viewers.any (fun v => v.id == r.userId) = true) ∧
      (sendLocal ctx es body badges now nonce).store.viewers = es.store.viewers := by
  have hviewers : (observe ctx es m now).store.viewers
      = (upsertViewer es.store m.userId m.username m.displayName).viewers := by
    simp only [observe]
    split
    · split
      · exact updateMessage_viewers _ _ _
      · exact insertMessage_viewers _ _
    · exact insertMessage_viewers _ _
  have hany_self : (observe ctx es m now).store.viewers.any
      (fun v => v.id == m.userId) = true := by
    rw [hviewers]; exact upsertViewer_any_self _ _ _ _
  refine ⟨hany_self, ?_, insertMessage_viewers _ _⟩
  intro r hr
  rcases observe_messages_userId ctx es m now r hr with ⟨r0, hr0, he⟩ | he
  · rw [hviewers, he]
    exact upsertViewer_any_mono _ _ _ _ _ (hInv r0 hr0)
  · rw [he]
    exact hany_self

/-- Witness for C4's amended theorem: observing a message from a fresh user
creates its identity entry. -/
theorem observe_upserts_identity_witness :
    (observe ctxA EngineState.empty (mkMsg "a1" "alice" "u1" "Alice" "hi" 5) 5).store.viewers.any
      (fun v => v.id == (mkMsg "a1" "alice" "u1" "Alice" "hi" 5).userId) = true :=
  (observe_upserts_identity ctxA EngineState.empty (mkMsg "a1" "alice" "u1" "Alice" "hi" 5)
      5 "gg" [] "x" (by decide)).1

/-! ## C6 — deletion is monotonic and non-destructive -/

theorem lt_length_of_getElem?_some {α : Type} {l : List α} {i : Nat} {a : α}
    (h : l[i]? = some a) : i < l.length := by
  by_contra hge
  rw [List.getElem?_eq_none (Nat.le_of_not_lt hge)] at h
  exact Option.noConfusion h

theorem mem_of_head?_eq_some {α : Type} {l : List α} {a : α} (h : l.head? = some a) :
    a ∈ l := by
  cases l with
  | nil => exact Option.noConfusion h
  | cons b t =>
    rw [List.head?_cons, Option.some.injEq] at h
    rw [← h]
    exact List.mem_cons_self b t

/-- A view entry that satisfies the reconciliation matcher carries a `self-`
id. -/
theorem selfEchoMatch_self {m : ChatMessage} {it : ChatItem}
    (h : selfEchoMatch m it = true) : strStartsWith it.id "self-" = true := by
  cases it with
  | message p =>
    simp only [selfEchoMatch, Bool.and_eq_true] at h
    exact h.1.1.1
  | subscription s => simp [selfEchoMatch] at h

/-- A pending id found by the reconciliation query carries the `self-`
marker (the query filters on `id LIKE 'self-%'`). -/
theorem findRecentSelfMessage_self {st : Store} {uid ch text : String}
    {w now : Millis} {pid : String}
    (h : findRecentSelfMessage st uid ch text w now = some pid) :
    strStartsWith pid "self-" = true := by
  simp only [findRecentSelfMessage] at h
  rcases Option.map_eq_some'.mp h with ⟨r, hr, hid⟩
  have hrmem : r ∈ st.messages.filter (fun r =>
      r.userId == uid && r.channelId == ch && r.message == text &&
        strStartsWith r.id "self-" && decide (now - w < r.timestamp)) :=
    (sortByDesc_perm (fun r : MessageRow => r.timestamp) _).mem_iff.mp (mem_of_head?_eq_some hr)
  have hpred := (List.mem_filter.mp hrmem).2
  simp only [Bool.and_eq_true] at hpred
  rw [← hid]
  exact hpred.1.2

/-- Flipping `isDeleted` on an already-deleted message is the identity. -/
theorem setDeleted_eq_self {x : ChatMessage} (h : x.isDeleted = true) :
    ({ x with isDeleted := true } : ChatMessage) = x := by
  cases x
  simp_all

/-- `addMessage` never moves or rewrites a non-`self-` entry: the entry at
any position keeps its position and value (a merge only ever targets a
`self-` entry). -/
theorem addMessage_preserves_entry {msgs : List ChatItem} {m x : ChatMessage} {i : Nat}
    (hx : msgs[i]? = some (ChatItem.message x))
    (hxnotself : strStartsWith x.id "self-" = false) :
    (addMessage msgs m)[i]? = some (ChatItem.message x) := by
  have hlt : i < msgs.length := lt_length_of_getElem?_some hx
  rw [addMessage]
  split
  · exact hx
  · split
    · rw [List.getElem?_append_left hlt]; exact hx
    · split
      · rename_i j hj
        have hji : j ≠ i := by
          intro hji
          subst hji
          rcases List.findIdx?_eq_some_iff_getElem.mp hj with ⟨hjlt, hpj, _⟩
          have hgj : msgs[j] = ChatItem.message x := by
            have h2 := List.getElem?_eq_getElem hjlt
            rw [h2, Option.some.injEq] at hx
            exact hx
          rw [hgj] at hpj
          have := selfEchoMatch_self hpj
          rw [show (ChatItem.message x).id = x.id from rfl, hxnotself] at this
          exact Bool.false_ne_true this
        rw [List.getElem?_set_ne hji]
        exact hx
      · rw [List.getElem?_append_left hlt]; exact hx

theorem addSubscription_preserves_entry {msgs : List ChatItem} {s : SubscriptionEvent}
    {i : Nat} {it : ChatItem} (hx : msgs[i]? = some it) :
    (addSubscription msgs s)[i]? = some it := by
  rw [addSubscription]
  split
  · exact hx
  · rw [List.getElem?_append_left (lt_length_of_getElem?_some hx)]
    exact hx

theorem deleteMessage_preserves_entry {msgs : List ChatItem} {x : ChatMessage}
    {i : Nat} {d : String} (hx : msgs[i]? = some (ChatItem.message x))
    (hdel : x.isDeleted = true) :
    (deleteMessage msgs d)[i]? = some (ChatItem.message x) := by
  rw [deleteMessage, List.getElem?_map, hx, Option.map_some']
  show some (if x.id == d then ChatItem.message { x with isDeleted := true }
    else ChatItem.message x) = _
  by_cases hc : (x.id == d) = true
  · rw [if_pos hc, setDeleted_eq_self hdel]
  · rw [if_neg hc]

/-- `updateMessage` keyed on a different id never un-deletes the rows with id
`xid`, nor can it rename another row onto `xid` while such a row exists (the
primary-key clash aborts the statement). -/
theorem updateMessage_deleted_preserved (st : Store) (oldId : String) (u : MessageUpdates)
    (xid : String) (hold : oldId ≠ xid)
    (hdel : ∀ r ∈ st.messages, r.id = xid → r.isDeleted = true)
    (hpres : st.messages.any (fun r => r.id == xid) = true) :
    (∀ r ∈ (updateMessage st oldId u).messages, r.id = xid → r.isDeleted = true) ∧
      (updateMessage st oldId u).messages.any (fun r => r.id == xid) = true := by
  rw [updateMessage]
  split
  · exact ⟨hdel, hpres⟩
  · rename_i hnoclash
    constructor
    · intro r hr hrid
      rcases List.mem_map.mp hr with ⟨r0, hr0, hr0eq⟩
      by_cases hcase : (r0.id == oldId) = true
      · rw [← hr0eq, if_pos hcase] at hrid ⊢
        exfalso
        cases hu : u.id with
        | none =>
          have : r0.id = xid := by
            rw [show (applyUpdates u r0).id = u.id.getD r0.id from rfl, hu] at hrid
            exact hrid
          exact hold (by rw [← eq_of_beq hcase, this])
        | some nid =>
          have hnid : nid = xid := by
            rw [show (applyUpdates u r0).id = u.id.getD r0.id from rfl, hu] at hrid
            exact hrid
          rw [hu] at hnoclash
          simp only [Bool.and_eq_true, bne_iff_ne] at hnoclash
          push_neg at hnoclash
          rcases Classical.em (nid = oldId) with he | he
          · exact hold (by rw [← he, hnid])
          · have h5 := hnoclash he
            rw [hnid] at h5
            exact h5 hpres
      · rw [← hr0eq, if_neg hcase] at hrid ⊢
        exact hdel r0 hr0 hrid
    · rw [List.any_eq_true] at hpres ⊢
      rcases hpres with ⟨r1, hr1, hr1x⟩
      refine ⟨if r1.id == oldId then applyUpdates u r1 else r1, List.mem_map_of_mem _ hr1, ?_⟩
      have hne : (r1.id == oldId) = false := by
        rw [beq_eq_false_iff_ne]
        intro he
        exact hold (by rw [← he]; exact eq_of_beq hr1x)
      rw [if_neg (by simp [hne])]
      exact hr1x

theorem insertMessage_deleted_preserved (st : Store) (m : MessageInsert) (xid : String)
    (hdel : ∀ r ∈ st.messages, r.id = xid → r.isDeleted = true)
    (hpres : st.messages.any (fun r => r.id == xid) = true) :
    (∀ r ∈ (insertMessage st m).messages, r.id = xid → r.isDeleted = true) ∧
      (insertMessage st m).messages.any (fun r => r.id == xid) = true := by
  rw [insertMessage]
  split
  · exact ⟨hdel, hpres⟩
  · rename_i hnew
    constructor
    · intro r hr hrid
      rcases List.mem_append.mp hr with h1 | h1
      · exact hdel r h1 hrid
      · rcases List.mem_singleton.mp h1 with rfl
        exfalso
        have hmx : m.id = xid := hrid
        rw [← hmx] at hpres
        rw [hpres] at hnew
        exact hnew rfl
    · rw [List.any_append, hpres, Bool.true_or]

theorem markDeleted_deleted_preserved (st : Store) (d xid : String)
    (hdel : ∀ r ∈ st.messages, r.id = xid → r.isDeleted = true)
    (hpres : st.messages.any (fun r => r.id == xid) = true) :
    (∀ r ∈ (markMessageAsDeleted st d).messages, r.id = xid → r.isDeleted = true) ∧
      (markMessageAsDeleted st d).messages.any (fun r => r.id == xid) = true := by
  rw [markMessageAsDeleted]
  constructor
  · intro r hr hrid
    rcases List.mem_map.mp hr with ⟨r0, hr0, hr0eq⟩
    rw [← hr0eq, rowDeleteFlag] at hrid ⊢
    by_cases hcase : (r0.id == d) = true
    · rw [if_pos hcase]
    · rw [if_neg hcase] at hrid ⊢
      exact hdel r0 hr0 hrid
  · rw [List.any_eq_true] at hpres ⊢
    rcases hpres with ⟨r1, hr1, hr1x⟩
    refine ⟨rowDeleteFlag d r1, List.mem_map_of_mem _ hr1, ?_⟩
    rw [rowDeleteFlag]
    by_cases hcase : (r1.id == d) = true
    · rw [if_pos hcase]; exact hr1x
    · rw [if_neg hcase]; exact hr1x

/-- The deleted-entry invariant: the ordered view holds the flagged entry at
its original position, and every store row with that id is flagged, at least
one such row existing. -/
def DeletedInv (x : ChatMessage) (i : Nat) (es : EngineState) : Prop :=
  es.view[i]? = some (ChatItem.message x) ∧
    (∀ r ∈ es.store.messages, r.id = x.id → r.isDeleted = true) ∧
    es.store.messages.any (fun r => r.id == x.id) = true

theorem deletedInv_applyOp (ctx : SessionContext) {x : ChatMessage} {i : Nat}
    {es : EngineState} (hxnotself : strStartsWith x.id "self-" = false)
    (hxdel : x.isDeleted = true) (op : EngineOp) (h : DeletedInv x i es) :
    DeletedInv x i (applyOp ctx es op) := by
  obtain ⟨hview, hdel, hpres⟩ := h
  cases op with
  | obsMsg m =>
    refine ⟨addMessage_preserves_entry hview hxnotself, ?_⟩
    show (∀ r ∈ (observe ctx es m m.timestamp).store.messages, r.id = x.id → r.isDeleted = true) ∧
      (observe ctx es m m.timestamp).store.messages.any (fun r => r.id == x.id) = true
    simp only [observe]
    have hdel1 : ∀ r ∈ (upsertViewer es.store m.userId m.username m.displayName).messages,
        r.id = x.id → r.isDeleted = true := by
      rw [upsertViewer_messages]; exact hdel
    have hpres1 : (upsertViewer es.store m.userId m.username m.displayName).messages.any
        (fun r => r.id == x.id) = true := by
      rw [upsertViewer_messages]; exact hpres
    split
    · split
      · rename_i pid hpid
        have hpid_self : strStartsWith pid "self-" = true := findRecentSelfMessage_self hpid
        have hpidx : pid ≠ x.id := by
          intro he
          rw [he, hxnotself] at hpid_self
          exact Bool.false_ne_true hpid_self
        exact updateMessage_deleted_preserved _ pid m.toUpdates x.id hpidx hdel1 hpres1
      · exact insertMessage_deleted_preserved _ _ x.id hdel1 hpres1
    · exact insertMessage_deleted_preserved _ _ x.id hdel1 hpres1
  | obsSub s =>
    refine ⟨addSubscription_preserves_entry hview, ?_, ?_⟩
    · show ∀ r ∈ (insertSubscription es.store s).messages, _
      rw [insertSubscription_messages]
      exact hdel
    · show (insertSubscription es.store s).messages.any _ = true
      rw [insertSubscription_messages]
      exact hpres
  | obsDel d =>
    refine ⟨deleteMessage_preserves_entry hview hxdel, ?_⟩
    exact markDeleted_deleted_preserved es.store d x.id hdel hpres

theorem deletedInv_applyOps (ctx : SessionContext) {x : ChatMessage} {i : Nat}
    (hxnotself : strStartsWith x.id "self-" = false) (hxdel : x.isDeleted = true)
    (ops : List EngineOp) :
    ∀ es : EngineState, DeletedInv x i es → DeletedInv x i (applyOps ctx es ops) := by
  induction ops with
  | nil => exact fun es h => h
  | cons op ops ih =>
    intro es h
    exact ih _ (deletedInv_applyOp ctx hxnotself hxdel op h)

/-- C6 counterexample: delete a local-pending entry, then its confirmed echo
arrives and reconciles — the surviving view entry has the confirmed id and
`isDeleted = false`, and the deleted entry's id is gone from the view: for
local-pending events the flag is neither monotonic nor the entry immutable. -/
theorem observeDeletion_not_monotonic_pending :
    ((observeDeletion (sendLocal ctxA EngineState.empty "gg" [] 0 "x") "self-0-x").view
        = [ChatItem.message { mkMsg "self-0-x" "memod" "me" "Me" "gg" 0 with isDeleted := true }]) ∧
      ((applyOp ctxA (observeDeletion (sendLocal ctxA EngineState.empty "gg" [] 0 "x") "self-0-x")
          (EngineOp.obsMsg (mkMsg "srv-9" "memod" "me" "Me" "gg" 300))).view
        = [ChatItem.message (mkMsg "srv-9" "memod" "me" "Me" "gg" 300)]) := by
  constructor
  · decide
  · decide

/-- C6 amended: for a canonical (non-local-pending) event `x`,
`observeDeletion(x)` followed by any sequence of engine operations leaves the
view entry at `x`'s position, flagged deleted and otherwise unchanged, and in
the store every row with `x`'s id stays present and flagged.  (A deleted
local-pending entry, by contrast, can be replaced in place by reconciliation,
which drops its id and adopts the confirmed message's un-deleted flag.) -/
theorem observeDeletion_monotonic (ctx : SessionContext) (es : EngineState)
    (ops : List EngineOp) (i : Nat) (x0 : ChatMessage)
    (hnotself : strStartsWith x0.id "self-" = false)
    (hview : es.view[i]? = some (ChatItem.message x0))
    (hpres : es.store.messages.any (fun r => r.id == x0.id) = true) :
    (applyOps ctx (observeDeletion es x0.id) ops).view[i]?
        = some (ChatItem.message { x0 with isDeleted := true }) ∧
      (∀ r ∈ (applyOps ctx (observeDeletion es x0.id) ops).store.messages,
        r.id = x0.id → r.isDeleted = true) ∧
      (applyOps ctx (observeDeletion es x0.id) ops).store.messages.any
        (fun r => r.id == x0.id) = true := by
  have hbase : DeletedInv { x0 with isDeleted := true } i (observeDeletion es x0.id) := by
    refine ⟨?_, ?_, ?_⟩
    · show (deleteMessage es.view x0.id)[i]? = _
      rw [deleteMessage, List.getElem?_map, hview, Option.map_some']
      show some (if x0.id == x0.id then ChatItem.message { x0 with isDeleted := true }
        else ChatItem.message x0) = _
      rw [if_pos (beq_self_eq_true x0.id)]
    · show ∀ r ∈ (markMessageAsDeleted es.store x0.id).messages, _
      intro r hr hrid
      rw [markMessageAsDeleted] at hr
      rcases List.mem_map.mp hr with ⟨r0, hr0, hr0eq⟩
      rw [← hr0eq, rowDeleteFlag] at hrid ⊢
      by_cases hcase : (r0.id == x0.id) = true
      · rw [if_pos hcase]
      · exfalso
        rw [if_neg hcase] at hrid
        exact absurd hrid (by simpa using hcase)
    · show (markMessageAsDeleted es.store x0.id).messages.any (fun r => r.id == x0.id) = true
      rw [markMessageAsDeleted]
      rw [List.any_eq_true] at hpres ⊢
      rcases hpres with ⟨r1, hr1, hr1x⟩
      refine ⟨rowDeleteFlag x0.id r1, List.mem_map_of_mem _ hr1, ?_⟩
      rw [rowDeleteFlag]
      by_cases hcase : (r1.id == x0.id) = true
      · rw [if_pos hcase]; exact hr1x
      · rw [if_neg hcase]; exact hr1x
  have hfinal := deletedInv_applyOps ctx (x := { x0 with isDeleted := true }) (i := i)
    hnotself rfl ops _ hbase
  exact hfinal

/-- Witness for C6's amended theorem: delete a canonical event, then a new
message, a subscription and a second deletion arrive; the entry stays at its
position, flagged. -/
theorem observeDeletion_monotonic_witness :
    (applyOps ctxA
        (observeDeletion
          (observe ctxA EngineState.empty (mkMsg "a1" "alice" "u1" "Alice" "hi" 5) 5) "a1")
        [EngineOp.obsMsg (mkMsg "b2" "bob" "u2" "Bob" "yo" 9),
          EngineOp.obsDel "b2"]).view[0]?
      = some (ChatItem.message { mkMsg "a1" "alice" "u1" "Alice" "hi" 5 with isDeleted := true }) :=
  (observeDeletion_monotonic ctxA
      (observe ctxA EngineState.empty (mkMsg "a1" "alice" "u1" "Alice" "hi" 5) 5)
      [EngineOp.obsMsg (mkMsg "b2" "bob" "u2" "Bob" "yo" 9), EngineOp.obsDel "b2"]
      0 (mkMsg "a1" "alice" "u1" "Alice" "hi" 5)
      (by decide) (by decide) (by decide)).1

/-! ## C2 — replay equivalence

The counterexample: the live view appends in arrival order, while replay
sorts by timestamp, so two observes with out-of-order timestamps produce
different orders. -/

/-- C2 counterexample: observing `a1` (t=1000) then `b2` (t=500) yields the
live view `[a1, b2]`, but replaying the resulting store yields `[b2, a1]` —
replay is not observably equal to the live-built view. -/
theorem replay_not_equivalent :
    (((applyOps ctxA EngineState.empty
        [EngineOp.obsMsg (mkMsg "a1" "alice" "u1" "Alice" "hi" 1000),
          EngineOp.obsMsg (mkMsg "b2" "bob" "u2" "Bob" "yo" 500)]).view.map ChatItem.id)
      = ["a1", "b2"]) ∧
      (((loadFromDatabase (applyOps ctxA EngineState.empty
          [EngineOp.obsMsg (mkMsg "a1" "alice" "u1" "Alice" "hi" 1000),
            EngineOp.obsMsg (mkMsg "b2" "bob" "u2" "Bob" "yo" 500)]).store
          ctxA.channelId).map ChatItem.id) = ["b2", "a1"]) := by
  constructor
  · decide
  · decide

/-! ### Sorting and mapping commutation lemmas -/

theorem insertByDesc_map {α β : Type} (key : α → Millis) (keyb : β → Millis)
    (f : α → β) (hk : ∀ a, keyb (f a) = key a) (a : α) (l : List α) :
    insertByDesc keyb (f a) (l.map f) = (insertByDesc key a l).map f := by
  induction l with
  | nil => simp [insertByDesc_nil]
  | cons b l ih =>
    rw [List.map_cons, insertByDesc_cons, insertByDesc_cons, hk, hk]
    split
    · rw [List.map_cons, List.map_cons]
    · rw [List.map_cons, ih]

theorem sortByDesc_map {α β : Type} (key : α → Millis) (keyb : β → Millis)
    (f : α → β) (hk : ∀ a, keyb (f a) = key a) (l : List α) :
    sortByDesc keyb (l.map f) = (sortByDesc key l).map f := by
  induction l with
  | nil => simp [sortByDesc_nil]
  | cons a l ih =>
    rw [List.map_cons, sortByDesc_cons, sortByDesc_cons, ih,
      insertByDesc_map key keyb f hk]

theorem insertByAsc_map {α β : Type} (key : α → Millis) (keyb : β → Millis)
    (f : α → β) (hk : ∀ a, keyb (f a) = key a) (a : α) (l : List α) :
    insertByAsc keyb (f a) (l.map f) = (insertByAsc key a l).map f := by
  induction l with
  | nil => simp [insertByAsc_nil]
  | cons b l ih =>
    rw [List.map_cons, insertByAsc_cons, insertByAsc_cons, hk, hk]
    split
    · rw [List.map_cons, List.map_cons]
    · rw [List.map_cons, ih]

theorem sortByAsc_map {α β : Type} (key : α → Millis) (keyb : β → Millis)
    (f : α → β) (hk : ∀ a, keyb (f a) = key a) (l : List α) :
    sortByAsc keyb (l.map f) = (sortByAsc key l).map f := by
  induction l with
  | nil => simp [sortByAsc_nil]
  | cons a l ih =>
    rw [List.map_cons, sortByAsc_cons, sortByAsc_cons, ih,
      insertByAsc_map key keyb f hk]

theorem filterMap_map_comm {α β γ δ : Type} (g : α → β) (f : β → Option δ)
    (fa : α → Option γ) (h : γ → δ) (hcomm : ∀ a, f (g a) = (fa a).map h)
    (l : List α) : (l.map g).filterMap f = (l.filterMap fa).map h := by
  induction l with
  | nil => simp
  | cons a l ih =>
    rw [List.map_cons, List.filterMap_cons, List.filterMap_cons, hcomm]
    cases hfa : fa a with
    | none =>
      rw [Option.map_none']
      exact ih
    | some d0 =>
      rw [Option.map_some', List.map_cons, ih]

theorem find?_map_pred {α : Type} (p : α → Bool) (f : α → α)
    (hp : ∀ a, p (f a) = p a) (l : List α) :
    (l.map f).find? p = (l.find? p).map f := by
  induction l with
  | nil => simp
  | cons a l ih =>
    by_cases hpa : p a = true
    · rw [List.map_cons, List.find?_cons_of_pos _ (by rw [hp]; exact hpa),
        List.find?_cons_of_pos _ hpa, Option.map_some']
    · rw [List.map_cons, List.find?_cons_of_neg _ (by rw [hp]; exact hpa),
        List.find?_cons_of_neg _ hpa, ih]

theorem find?_append_none {α : Type} (p : α → Bool) (l1 l2 : List α)
    (h : l1.find? p = none) : (l1 ++ l2).find? p = l2.find? p := by
  induction l1 with
  | nil => simp
  | cons a l1 ih =>
    by_cases hpa : p a = true
    · rw [List.find?_cons_of_pos _ hpa] at h
      exact Option.noConfusion h
    · rw [List.find?_cons_of_neg _ hpa] at h
      rw [List.cons_append, List.find?_cons_of_neg _ hpa]
      exact ih h

theorem find?_append_some {α : Type} (p : α → Bool) (l1 l2 : List α) {a : α}
    (h : l1.find? p = some a) : (l1 ++ l2).find? p = some a := by
  induction l1 with
  | nil => exact Option.noConfusion h
  | cons b l1 ih =>
    by_cases hpb : p b = true
    · rw [List.find?_cons_of_pos _ hpb] at h
      rw [List.cons_append, List.find?_cons_of_pos _ hpb]
      exact h
    · rw [List.find?_cons_of_neg _ hpb] at h
      rw [List.cons_append, List.find?_cons_of_neg _ hpb]
      exact ih h

theorem orNullStr_idem (o : Option String) : orNullStr (orNullStr o) = orNullStr o := by
  cases o with
  | none => rfl
  | some s =>
    rw [orNullStr]
    split
    · rfl
    · rename_i h
      rw [orNullStr, if_neg h]

theorem orNullNat_idem (o : Option Nat) : orNullNat (orNullNat o) = orNullNat o := by
  cases o with
  | none => rfl
  | some n =>
    rw [orNullNat]
    split
    · rfl
    · rename_i h
      rw [orNullNat, if_neg h]

/-! ### Replay commutes with deletion flagging -/

theorem joinViewer_markDeleted (st : Store) (d : String) (r : MessageRow) :
    joinViewer (markMessageAsDeleted st d) (rowDeleteFlag d r)
      = (joinViewer st r).map (dbDeleteFlag d) := by
  cases hfind : st.viewers.find? (fun v => v.id == r.userId) with
  | none =>
    by_cases hc : (r.id == d) = true
    · have hc' : r.id = d := eq_of_beq hc
      simp [joinViewer, markMessageAsDeleted, rowDeleteFlag, dbDeleteFlag, hfind, hc']
    · have hc' : ¬ r.id = d := by simpa using hc
      simp [joinViewer, markMessageAsDeleted, rowDeleteFlag, dbDeleteFlag, hfind, hc']
  | some v =>
    by_cases hc : (r.id == d) = true
    · have hc' : r.id = d := eq_of_beq hc
      simp [joinViewer, markMessageAsDeleted, rowDeleteFlag, dbDeleteFlag, hfind, hc']
    · have hc' : ¬ r.id = d := by simpa using hc
      simp [joinViewer, markMessageAsDeleted, rowDeleteFlag, dbDeleteFlag, hfind, hc']

/-- Replaying after `markDeleted(d)` is the same as replaying and then
flagging `d` in the rebuilt view: deletion flagging commutes with replay. -/
theorem loadFromDatabase_markDeleted (st : Store) (ch d : String) :
    loadFromDatabase (markMessageAsDeleted st d) ch
      = deleteMessage (loadFromDatabase st ch) d := by
  have hfetch : getRecentMessages (markMessageAsDeleted st d) ch 100
      = (getRecentMessages st ch 100).map (dbDeleteFlag d) := by
    rw [getRecentMessages, getRecentMessages]
    have hfilter : (markMessageAsDeleted st d).messages.filter (fun r => r.channelId == ch)
        = (st.messages.filter (fun r => r.channelId == ch)).map (rowDeleteFlag d) := by
      show (st.messages.map (rowDeleteFlag d)).filter (fun r => r.channelId == ch) = _
      rw [List.filter_map]
      refine congrArg _ (List.filter_congr ?_)
      intro r _
      show ((fun s : MessageRow => s.channelId == ch) (rowDeleteFlag d r)) = (r.channelId == ch)
      rw [rowDeleteFlag]
      by_cases hc : (r.id == d) = true
      · rw [if_pos hc]
      · rw [if_neg hc]
    rw [hfilter]
    rw [filterMap_map_comm (rowDeleteFlag d) (joinViewer (markMessageAsDeleted st d))
      (joinViewer st) (dbDeleteFlag d) (joinViewer_markDeleted st d) _]
    rw [sortByDesc_map (fun x : DbChatMessage => x.timestamp)
      (fun x : DbChatMessage => x.timestamp) (dbDeleteFlag d) ?hk _]
    case hk =>
      intro x
      rw [dbDeleteFlag]
      by_cases hc : (x.id == d) = true
      · rw [if_pos hc]
      · rw [if_neg hc]
    rw [← List.map_take, ← List.map_reverse]
  have hpoint : ∀ x : DbChatMessage,
      ChatItem.message (dbMessageToChatMessage (dbDeleteFlag d x))
        = deleteFlag d (ChatItem.message (dbMessageToChatMessage x)) := by
    intro x
    rw [dbDeleteFlag]
    simp only [deleteFlag]
    by_cases hc : (x.id == d) = true
    · rw [if_pos hc, if_pos (show ((dbMessageToChatMessage x).id == d) = true from hc)]
      rfl
    · rw [if_neg hc, if_neg (show ¬ ((dbMessageToChatMessage x).id == d) = true from hc)]
  have hkey : ∀ it : ChatItem, ChatItem.timestamp (deleteFlag d it) = ChatItem.timestamp it := by
    intro it
    cases it with
    | message m =>
      simp only [deleteFlag]
      by_cases hc : (m.id == d) = true
      · rw [if_pos hc]; rfl
      · rw [if_neg hc]
    | subscription s => rfl
  have h1 : ((getRecentMessages st ch 100).map (dbDeleteFlag d)).map
      (fun x => ChatItem.message (dbMessageToChatMessage x))
      = ((getRecentMessages st ch 100).map
          (fun x => ChatItem.message (dbMessageToChatMessage x))).map (deleteFlag d) := by
    rw [List.map_map, List.map_map]
    exact List.map_congr_left (fun x _ => hpoint x)
  have h2 : (getRecentSubscriptions st ch 100).map ChatItem.subscription
      = ((getRecentSubscriptions st ch 100).map ChatItem.subscription).map (deleteFlag d) := by
    rw [List.map_map]
    exact List.map_congr_left (fun s _ => rfl)
  have hsubs : getRecentSubscriptions (markMessageAsDeleted st d) ch 100
      = getRecentSubscriptions st ch 100 := rfl
  simp only [loadFromDatabase, deleteMessage]
  rw [hfetch, hsubs]
  conv_lhs => rw [h1, h2]
  rw [← List.map_append,
    sortByAsc_map (fun it : ChatItem => it.timestamp) (fun it : ChatItem => it.timestamp)
      (deleteFlag d) hkey _]

/-! ### Replay is unaffected by viewer upserts that agree with stored names -/

theorem joinViewer_congr {st1 st2 : Store} (h : st1.viewers = st2.viewers)
    (r : MessageRow) : joinViewer st1 r = joinViewer st2 r := by
  rw [joinViewer, joinViewer, h]

theorem joinViewer_id {st : Store} {r : MessageRow} {d : DbChatMessage}
    (h : joinViewer st r = some d) : d.id = r.id := by
  rw [joinViewer] at h
  rcases Option.map_eq_some'.mp h with ⟨v, _, hd⟩
  rw [← hd]

/-- Upserting a viewer whose stored entry (if any) already carries the same
names does not change what replay produces, provided every message row can be
joined. -/
theorem loadFromDatabase_upsertViewer (st : Store) (ch uid u d : String)
    (hjoin : ∀ r ∈ st.messages, (st.viewers.find? (fun v => v.id == r.userId)).isSome = true)
    (hnames : ∀ v ∈ st.viewers, v.id = uid → v.username = u ∧ v.displayName = d) :
    loadFromDatabase (upsertViewer st uid u d) ch = loadFromDatabase st ch := by
  rw [upsertViewer]
  split
  · have hmap : st.viewers.map (fun v =>
        if v.id == uid then { v with username := u, displayName := d } else v) = st.viewers := by
      have h1 : ∀ v ∈ st.viewers,
          (if v.id == uid then { v with username := u, displayName := d } else v) = v := by
        intro v hv
        by_cases hc : (v.id == uid) = true
        · rw [if_pos hc]
          rcases hnames v hv (eq_of_beq hc) with ⟨h2, h3⟩
          cases v
          simp only at h2 h3
          rw [h2, h3]
        · rw [if_neg hc]
      calc st.viewers.map (fun v =>
            if v.id == uid then { v with username := u, displayName := d } else v)
          = st.viewers.map id := List.map_congr_left h1
        _ = st.viewers := List.map_id st.viewers
    rw [hmap]
  · have hjoin' : ∀ r ∈ st.messages.filter (fun r => r.channelId == ch),
        joinViewer { st with viewers := st.viewers ++ [(⟨uid, u, d⟩ : Viewer)] } r
          = joinViewer st r := by
      intro r hr
      rcases List.mem_filter.mp hr with ⟨hrm, _⟩
      have hsome := hjoin r hrm
      rw [joinViewer, joinViewer]
      show ((st.viewers ++ [(⟨uid, u, d⟩ : Viewer)]).find? (fun v => v.id == r.userId)).map _
        = (st.viewers.find? (fun v => v.id == r.userId)).map _
      cases hfind : st.viewers.find? (fun v => v.id == r.userId) with
      | none =>
        rw [hfind] at hsome
        exact absurd hsome (by simp)
      | some v0 => rw [find?_append_some _ _ _ hfind]
    have hfetch : getRecentMessages
        { st with viewers := st.viewers ++ [(⟨uid, u, d⟩ : Viewer)] } ch 100
        = getRecentMessages st ch 100 := by
      rw [getRecentMessages, getRecentMessages]
      rw [show ({ st with viewers := st.viewers ++ [(⟨uid, u, d⟩ : Viewer)] } : Store).messages
        = st.messages from rfl]
      rw [List.filterMap_congr hjoin']
    have hsubs : getRecentSubscriptions
        { st with viewers := st.viewers ++ [(⟨uid, u, d⟩ : Viewer)] } ch 100
        = getRecentSubscriptions st ch 100 := rfl
    simp only [loadFromDatabase]
    rw [hfetch, hsubs]

/-! ### Replay of a freshly inserted message or subscription appends it -/

/-- The joined row that `getRecentMessages` fetches for a freshly inserted
message, joined against viewer `vv` (falsy coalescing applied at insert time
and again at fetch time). -/
def insertedDbRow (mi : MessageInsert) (vv : Viewer) : DbChatMessage :=
  { id := mi.id, userId := mi.userId, channelId := mi.channelId,
    username := vv.username, displayName := vv.displayName, message := mi.message,
    timestamp := mi.timestamp, color := orNullStr (orNullStr mi.color),
    badges := mi.badges, isFirstMessage := mi.isFirstMessage,
    isReturningChatter := mi.isReturningChatter, isHighlighted := mi.isHighlighted,
    bits := orNullNat (orNullNat mi.bits),
    replyParentMessageId := orNullStr (orNullStr mi.replyParentMessageId),
    emoteOffsets := orNullStr (orNullStr mi.emoteOffsets), isDeleted := false }

/-- The `ChatMessage` replay produces for that row. -/
def insertedItem (mi : MessageInsert) (vv : Viewer) : ChatMessage :=
  { id := mi.id, username := vv.username, userId := mi.userId, displayName := vv.displayName,
    message := mi.message, timestamp := mi.timestamp, color := orNullStr mi.color,
    badges := mi.badges, isFirstMessage := mi.isFirstMessage,
    isReturningChatter := mi.isReturningChatter, isHighlighted := mi.isHighlighted,
    bits := orNullNat mi.bits, replyParentMessageId := orNullStr mi.replyParentMessageId,
    emoteOffsets := orNullStr mi.emoteOffsets, isDeleted := false }

theorem dbMessageToChatMessage_insertedDbRow (mi : MessageInsert) (vv : Viewer) :
    dbMessageToChatMessage (insertedDbRow mi vv) = insertedItem mi vv := by
  simp [dbMessageToChatMessage, insertedDbRow, insertedItem, orNullStr_idem, orNullNat_idem]

theorem loadFromDatabase_insertMessage (st : Store) (ch : String) (mi : MessageInsert)
    (vv : Viewer)
    (hch : mi.channelId = ch)
    (hfresh : st.messages.any (fun r => r.id == mi.id) = false)
    (hlen : (joinedRows st ch).length < 100)
    (hv : st.viewers.find? (fun v => v.id == mi.userId) = some vv)
    (hts : ∀ x ∈ loadFromDatabase st ch, ChatItem.timestamp x < mi.timestamp)
    (htsj : ∀ x ∈ joinedRows st ch, x.timestamp < mi.timestamp) :
    loadFromDatabase (insertMessage st mi) ch
      = loadFromDatabase st ch ++ [ChatItem.message (insertedItem mi vv)] := by
  have hmsgs : (insertMessage st mi).messages = st.messages ++ [mi.toRow] := by
    rw [insertMessage, if_neg (by simp [hfresh])]
  have hnewdb : joinViewer (insertMessage st mi) mi.toRow = some (insertedDbRow mi vv) := by
    rw [joinViewer, insertMessage_viewers]
    rw [show mi.toRow.userId = mi.userId from rfl, hv]
    rfl
  have hrowch : (mi.toRow.channelId == ch) = true := by
    rw [show mi.toRow.channelId = mi.channelId from rfl, hch]
    exact beq_self_eq_true ch
  have hjoined : ((insertMessage st mi).messages.filter (fun r => r.channelId == ch)).filterMap
        (joinViewer (insertMessage st mi))
      = joinedRows st ch ++ [insertedDbRow mi vv] := by
    rw [hmsgs, List.filter_append]
    rw [show List.filter (fun r => r.channelId == ch) [mi.toRow] = [mi.toRow] by
      rw [List.filter_cons, if_pos (by exact hrowch)]; rfl]
    rw [List.filterMap_append]
    rw [show List.filterMap (joinViewer (insertMessage st mi)) [mi.toRow]
        = [insertedDbRow mi vv] by
      rw [List.filterMap_cons, hnewdb]; rfl]
    rw [joinedRows, List.filterMap_congr
      (fun r _ => joinViewer_congr (insertMessage_viewers st mi) r)]
  have hfetch : getRecentMessages (insertMessage st mi) ch 100
      = getRecentMessages st ch 100 ++ [insertedDbRow mi vv] := by
    rw [getRecentMessages, getRecentMessages]
    rw [show ((insertMessage st mi).messages.filter (fun r => r.channelId == ch)).filterMap
        (joinViewer (insertMessage st mi)) = joinedRows st ch ++ [insertedDbRow mi vv]
      from hjoined]
    rw [show ((st.messages.filter (fun r => r.channelId == ch)).filterMap (joinViewer st))
      = joinedRows st ch from rfl]
    rw [sortByDesc_append_max (fun x : DbChatMessage => x.timestamp) (insertedDbRow mi vv)
      (joinedRows st ch) (fun x hx => htsj x hx)]
    have hlen_sorted : (sortByDesc (fun x : DbChatMessage => x.timestamp)
        (joinedRows st ch)).length = (joinedRows st ch).length :=
      (sortByDesc_perm (fun x : DbChatMessage => x.timestamp) (joinedRows st ch)).length_eq
    rw [List.take_of_length_le (by rw [List.length_cons, hlen_sorted]; omega),
      List.take_of_length_le (by rw [hlen_sorted]; omega)]
    rw [List.reverse_cons]
  have hsubs : getRecentSubscriptions (insertMessage st mi) ch 100
      = getRecentSubscriptions st ch 100 := by
    rw [getRecentSubscriptions, getRecentSubscriptions, insertMessage_subscriptions]
  simp only [loadFromDatabase]
  rw [hfetch, hsubs, List.map_append]
  rw [show [insertedDbRow mi vv].map (fun x => ChatItem.message (dbMessageToChatMessage x))
      = [ChatItem.message (insertedItem mi vv)] by
    rw [List.map_cons, dbMessageToChatMessage_insertedDbRow]; rfl]
  rw [List.append_assoc, List.singleton_append]
  rw [sortByAsc_append_max (fun it : ChatItem => it.timestamp)
    (ChatItem.message (insertedItem mi vv)) _ _ ?hts2]
  case hts2 =>
    intro x hx
    refine hts x ?_
    show x ∈ loadFromDatabase st ch
    exact (sortByAsc_perm (fun it : ChatItem => it.timestamp) _).mem_iff.mpr hx

theorem loadFromDatabase_insertSubscription (st : Store) (ch : String) (s : SubscriptionEvent)
    (hch : s.channelId = ch)
    (hnorm : s.normalize = s)
    (hfresh : st.subscriptions.any (fun row => row.id == s.id) = false)
    (hlen : (st.subscriptions.filter (fun r => r.channelId == ch)).length < 100)
    (hts : ∀ x ∈ loadFromDatabase st ch, ChatItem.timestamp x < s.timestamp)
    (htsub : ∀ r ∈ st.subscriptions.filter (fun r => r.channelId == ch),
      r.timestamp < s.timestamp) :
    loadFromDatabase (insertSubscription st s) ch
      = loadFromDatabase st ch ++ [ChatItem.subscription s] := by
  have hsubs1 : (insertSubscription st s).subscriptions = st.subscriptions ++ [s] := by
    rw [insertSubscription, if_neg (by simp [hfresh]), hnorm]
  have hrowch : (s.channelId == ch) = true := by
    rw [hch]; exact beq_self_eq_true ch
  have hfetch : getRecentSubscriptions (insertSubscription st s) ch 100
      = getRecentSubscriptions st ch 100 ++ [s] := by
    rw [getRecentSubscriptions, getRecentSubscriptions, hsubs1, List.filter_append]
    rw [show List.filter (fun r => r.channelId == ch) [s] = [s] by
      rw [List.filter_cons, if_pos (by exact hrowch)]; rfl]
    rw [sortByDesc_append_max (fun x : SubscriptionEvent => x.timestamp) s
      (st.subscriptions.filter (fun r => r.channelId == ch)) (fun x hx => htsub x hx)]
    have hlen_sorted : (sortByDesc (fun x : SubscriptionEvent => x.timestamp)
        (st.subscriptions.filter (fun r => r.channelId == ch))).length
        = (st.subscriptions.filter (fun r => r.channelId == ch)).length :=
      (sortByDesc_perm (fun x : SubscriptionEvent => x.timestamp) _).length_eq
    rw [List.take_of_length_le (by rw [List.length_cons, hlen_sorted]; omega),
      List.take_of_length_le (by rw [hlen_sorted]; omega)]
    rw [List.reverse_cons, List.map_append]
    rw [show [s].map SubscriptionEvent.normalize = [s] by
      rw [List.map_cons, hnorm]; rfl]
  have hmsgs : getRecentMessages (insertSubscription st s) ch 100
      = getRecentMessages st ch 100 := by
    rw [getRecentMessages, getRecentMessages, insertSubscription_messages]
    rw [List.filterMap_congr
      (fun r _ => joinViewer_congr (insertSubscription_viewers st s) r)]
  simp only [loadFromDatabase]
  rw [hfetch, hmsgs, List.map_append]
  rw [show [s].map ChatItem.subscription = [ChatItem.subscription s] from rfl]
  rw [← List.append_assoc]
  rw [show (getRecentMessages st ch 100).map
        (fun x => ChatItem.message (dbMessageToChatMessage x))
      ++ (getRecentSubscriptions st ch 100).map ChatItem.subscription
      ++ [ChatItem.subscription s]
    = (getRecentMessages st ch 100).map
        (fun x => ChatItem.message (dbMessageToChatMessage x))
      ++ (getRecentSubscriptions st ch 100).map ChatItem.subscription
      ++ ChatItem.subscription s :: [] from rfl]
  rw [sortByAsc_append_max (fun it : ChatItem => it.timestamp)
    (ChatItem.subscription s) _ [] ?hts3]
  case hts3 =>
    intro x hx
    rw [List.append_nil] at hx
    refine hts x ?_
    show x ∈ loadFromDatabase st ch
    exact (sortByAsc_perm (fun it : ChatItem => it.timestamp) _).mem_iff.mpr hx
  rw [List.append_nil]

/-! ### What replay can contain -/

theorem mem_getRecentMessages_joinedRows {st : Store} {ch : String} {lim : Nat}
    {dbm : DbChatMessage} (h : dbm ∈ getRecentMessages st ch lim) :
    dbm ∈ joinedRows st ch := by
  rw [getRecentMessages, List.mem_reverse] at h
  have h2 := List.Sublist.mem h (List.take_sublist _ _)
  exact (sortByDesc_perm (fun x : DbChatMessage => x.timestamp) _).mem_iff.mp h2

theorem mem_getRecentSubscriptions {st : Store} {ch : String} {lim : Nat}
    {s1 : SubscriptionEvent} (h : s1 ∈ getRecentSubscriptions st ch lim) :
    ∃ s0 ∈ st.subscriptions, s1.id = s0.id ∧ s1.timestamp = s0.timestamp := by
  rw [getRecentSubscriptions] at h
  rcases List.mem_map.mp h with ⟨s2, hs2, rfl⟩
  rw [List.mem_reverse] at hs2
  have h3 := List.Sublist.mem hs2 (List.take_sublist _ _)
  have h4 := (sortByDesc_perm (fun x : SubscriptionEvent => x.timestamp) _).mem_iff.mp h3
  exact ⟨s2, (List.mem_filter.mp h4).1, rfl, rfl⟩

/-- Every item of a replayed view descends from a stored message row or a
stored subscription row, with the same id and timestamp. -/
theorem mem_loadFromDatabase {st : Store} {ch : String} {x : ChatItem}
    (h : x ∈ loadFromDatabase st ch) :
    (∃ r ∈ st.messages, x.id = r.id ∧ ChatItem.timestamp x = r.timestamp) ∨
      (∃ s0 ∈ st.subscriptions, x.id = s0.id ∧ ChatItem.timestamp x = s0.timestamp) := by
  simp only [loadFromDatabase] at h
  have h2 := (sortByAsc_perm (fun it : ChatItem => it.timestamp) _).mem_iff.mp h
  rcases List.mem_append.mp h2 with h3 | h3
  · rcases List.mem_map.mp h3 with ⟨dbm, hdbm, rfl⟩
    have hj := mem_getRecentMessages_joinedRows hdbm
    rcases List.mem_filterMap.mp hj with ⟨r, hr, hjoin⟩
    rcases List.mem_filter.mp hr with ⟨hrm, _⟩
    left
    refine ⟨r, hrm, ?_, ?_⟩
    · show dbm.id = r.id
      exact joinViewer_id hjoin
    · show dbm.timestamp = r.timestamp
      exact (joinViewer_channelId hjoin).2
  · rcases List.mem_map.mp h3 with ⟨s1, hs1, rfl⟩
    rcases mem_getRecentSubscriptions hs1 with ⟨s0, hs0, hid, hts⟩
    right
    exact ⟨s0, hs0, hid, hts⟩

/-- Elements of the joined row set take their timestamps from message rows. -/
theorem joinedRows_timestamp {st : Store} {ch : String} {x : DbChatMessage}
    (h : x ∈ joinedRows st ch) : ∃ r ∈ st.messages, x.timestamp = r.timestamp := by
  rcases List.mem_filterMap.mp h with ⟨r, hr, hjoin⟩
  exact ⟨r, (List.mem_filter.mp hr).1, (joinViewer_channelId hjoin).2⟩

/-- A non-`self-` entry can never satisfy the reconciliation matcher. -/
theorem selfEchoMatch_eq_false {m : ChatMessage} {it : ChatItem}
    (h : strStartsWith it.id "self-" = false) : selfEchoMatch m it = false := by
  cases it with
  | message p =>
    have hp : strStartsWith p.id "self-" = false := h
    simp [selfEchoMatch, hp]
  | subscription s => rfl

/-! ### Well-formed traces and the replay invariant -/

/-- Conditions under which an observed message commutes with replay: a
non-local author (no reconciliation attempt), a server id (no `self-`
marker), a timestamp past everything seen so far, fields that survive the
falsy-coalescing round trip, and author names that agree with the fixed
directory `names` (the viewers table is last-write-wins, so replay serves the
latest names). -/
def goodMsg (ctx : SessionContext) (names : String → String × String) (bound : Millis)
    (m : ChatMessage) : Prop :=
  m.userId ≠ ctx.currentUserId ∧
    strStartsWith m.id "self-" = false ∧
    bound < m.timestamp ∧
    m.isDeleted = false ∧
    orNullStr m.color = m.color ∧
    orNullNat m.bits = m.bits ∧
    orNullStr m.replyParentMessageId = m.replyParentMessageId ∧
    orNullStr m.emoteOffsets = m.emoteOffsets ∧
    m.username = (names m.userId).1 ∧
    m.displayName = (names m.userId).2

/-- The analogous conditions for a subscription event. -/
def goodSub (ctx : SessionContext) (bound : Millis) (s : SubscriptionEvent) : Prop :=
  s.channelId = ctx.channelId ∧
    strStartsWith s.id "self-" = false ∧
    bound < s.timestamp ∧
    s.normalize = s

/-- A trace of engine inputs with strictly increasing event timestamps and
globally fresh event ids. -/
def goodTrace (ctx : SessionContext) (names : String → String × String) :
    Millis → List String → List EngineOp → Prop
  | _, _, [] => True
  | bound, used, EngineOp.obsMsg m :: ops =>
      goodMsg ctx names bound m ∧ m.id ∉ used ∧
        goodTrace ctx names m.timestamp (m.id :: used) ops
  | bound, used, EngineOp.obsSub s :: ops =>
      goodSub ctx bound s ∧ s.id ∉ used ∧
        goodTrace ctx names s.timestamp (s.id :: used) ops
  | bound, used, EngineOp.obsDel _ :: ops => goodTrace ctx names bound used ops

/-- The replay invariant: the live view is exactly what replay rebuilds, and
the bookkeeping facts that keep this preserved. -/
structure ReplayInv (ctx : SessionContext) (names : String → String × String)
    (bound : Millis) (used : List String) (es : EngineState) : Prop where
  replay : es.view = loadFromDatabase es.store ctx.channelId
  rows_channel : ∀ r ∈ es.store.messages, r.channelId = ctx.channelId
  rows_ts : ∀ r ∈ es.store.messages, r.timestamp ≤ bound
  subs_ts : ∀ s ∈ es.store.subscriptions, s.timestamp ≤ bound
  rows_used : ∀ r ∈ es.store.messages, r.id ∈ used
  subs_used : ∀ s ∈ es.store.subscriptions, s.id ∈ used
  rows_notself : ∀ r ∈ es.store.messages, strStartsWith r.id "self-" = false
  subs_notself : ∀ s ∈ es.store.subscriptions, strStartsWith s.id "self-" = false
  viewer_names : ∀ v ∈ es.store.viewers,
    v.username = (names v.id).1 ∧ v.displayName = (names v.id).2
  rows_viewer : ∀ r ∈ es.store.messages,
    (es.store.viewers.find? (fun v => v.id == r.userId)).isSome = true

theorem ReplayInv.view_used {ctx : SessionContext} {names : String → String × String}
    {bound : Millis} {used : List String} {es : EngineState}
    (inv : ReplayInv ctx names bound used es) : ∀ it ∈ es.view, it.id ∈ used := by
  intro it hit
  rw [inv.replay] at hit
  rcases mem_loadFromDatabase hit with ⟨r, hr, hid, _⟩ | ⟨s0, hs0, hid, _⟩
  · rw [hid]; exact inv.rows_used r hr
  · rw [hid]; exact inv.subs_used s0 hs0

theorem ReplayInv.view_ts {ctx : SessionContext} {names : String → String × String}
    {bound : Millis} {used : List String} {es : EngineState}
    (inv : ReplayInv ctx names bound used es) :
    ∀ it ∈ es.view, ChatItem.timestamp it ≤ bound := by
  intro it hit
  rw [inv.replay] at hit
  rcases mem_loadFromDatabase hit with ⟨r, hr, _, hts⟩ | ⟨s0, hs0, _, hts⟩
  · rw [hts]; exact inv.rows_ts r hr
  · rw [hts]; exact inv.subs_ts s0 hs0

theorem ReplayInv.view_notself {ctx : SessionContext} {names : String → String × String}
    {bound : Millis} {used : List String} {es : EngineState}
    (inv : ReplayInv ctx names bound used es) :
    ∀ it ∈ es.view, strStartsWith it.id "self-" = false := by
  intro it hit
  rw [inv.replay] at hit
  rcases mem_loadFromDatabase hit with ⟨r, hr, hid, _⟩ | ⟨s0, hs0, hid, _⟩
  · rw [hid]; exact inv.rows_notself r hr
  · rw [hid]; exact inv.subs_notself s0 hs0

/-- An upsert leaves a viewer entry for the upserted id, carrying the
upserted names, findable by `find?`. -/
theorem upsertViewer_find_self (st : Store) (uid u d : String) :
    ∃ vv, (upsertViewer st uid u d).viewers.find? (fun v => v.id == uid) = some vv ∧
      vv.username = u ∧ vv.displayName = d := by
  rw [upsertViewer]
  split
  · rename_i hany
    have hfind : (st.viewers.find? (fun v => v.id == uid)).isSome = true := by
      rw [List.find?_isSome]
      rw [List.any_eq_true] at hany
      exact hany
    cases hv0 : st.viewers.find? (fun v => v.id == uid) with
    | none => rw [hv0] at hfind; exact absurd hfind (by simp)
    | some v0 =>
      have hp := List.find?_some hv0
      refine ⟨{ v0 with username := u, displayName := d }, ?_, rfl, rfl⟩
      show (st.viewers.map (fun v : Viewer =>
          if v.id == uid then { v with username := u, displayName := d } else v)).find?
        (fun v => v.id == uid) = some { v0 with username := u, displayName := d }
      rw [find?_map_pred (fun v : Viewer => v.id == uid)
        (fun v : Viewer => if v.id == uid then { v with username := u, displayName := d } else v)
        ?hpres _, hv0, Option.map_some', if_pos hp]
      case hpres =>
        intro v
        show (((if v.id == uid then { v with username := u, displayName := d } else v) :
            Viewer).id == uid) = (v.id == uid)
        by_cases hc : (v.id == uid) = true
        · rw [if_pos hc]
        · rw [if_neg hc]
  · rename_i hany
    have hnone : st.viewers.find? (fun v => v.id == uid) = none := by
      cases hv0 : st.viewers.find? (fun v => v.id == uid) with
      | none => rfl
      | some v0 =>
        exfalso
        have : (st.viewers.find? (fun v => v.id == uid)).isSome = true := by rw [hv0]; rfl
        rw [List.find?_isSome] at this
        rw [List.any_eq_true] at hany
        exact hany this
    refine ⟨⟨uid, u, d⟩, ?_, rfl, rfl⟩
    show ((st.viewers ++ [(⟨uid, u, d⟩ : Viewer)]).find? (fun v => v.id == uid))
      = some (⟨uid, u, d⟩ : Viewer)
    rw [find?_append_none _ _ _ hnone]
    exact List.find?_cons_of_pos _ (by exact beq_self_eq_true uid)

/-- An upsert preserves findability of every viewer id. -/
theorem upsertViewer_find_isSome (st : Store) (uid u d j : String)
    (h : (st.viewers.find? (fun v => v.id == j)).isSome = true) :
    ((upsertViewer st uid u d).viewers.find? (fun v => v.id == j)).isSome = true := by
  rw [upsertViewer]
  split
  · show (((st.viewers.map (fun v : Viewer =>
        if v.id == uid then { v with username := u, displayName := d } else v)).find?
        (fun v => v.id == j)).isSome) = true
    rw [find?_map_pred (fun v : Viewer => v.id == j)
      (fun v : Viewer => if v.id == uid then { v with username := u, displayName := d } else v)
      ?hpres _]
    case hpres =>
      intro v
      show (((if v.id == uid then { v with username := u, displayName := d } else v) :
          Viewer).id == j) = (v.id == j)
      by_cases hc : (v.id == uid) = true
      · rw [if_pos hc]
      · rw [if_neg hc]
    cases hv0 : st.viewers.find? (fun v => v.id == j) with
    | none => rw [hv0] at h; exact absurd h (by simp)
    | some v0 => rfl
  · show (((st.viewers ++ [(⟨uid, u, d⟩ : Viewer)]).find? (fun v => v.id == j)).isSome) = true
    cases hv0 : st.viewers.find? (fun v => v.id == j) with
    | none => rw [hv0] at h; exact absurd h (by simp)
    | some v0 => rw [find?_append_some _ _ _ hv0]; rfl

/-- An upsert whose names agree with the directory keeps all viewer names
agreeing with the directory. -/
theorem upsertViewer_names (st : Store) (uid u d : String)
    (names : String → String × String)
    (hok : ∀ v ∈ st.viewers, v.username = (names v.id).1 ∧ v.displayName = (names v.id).2)
    (hu : u = (names uid).1) (hd : d = (names uid).2) :
    ∀ v ∈ (upsertViewer st uid u d).viewers,
      v.username = (names v.id).1 ∧ v.displayName = (names v.id).2 := by
  intro v hv
  rw [upsertViewer] at hv
  split at hv
  · rcases List.mem_map.mp hv with ⟨v0, hv0, hv0eq⟩
    by_cases hc : (v0.id == uid) = true
    · rw [← hv0eq, if_pos hc]
      have hid : v0.id = uid := eq_of_beq hc
      constructor
      · show u = (names v0.id).1
        rw [hid, ← hu]
      · show d = (names v0.id).2
        rw [hid, ← hd]
    · rw [← hv0eq, if_neg hc]
      exact hok v0 hv0
  · rcases List.mem_append.mp hv with h1 | h1
    · exact hok v h1
    · rcases List.mem_singleton.mp h1 with rfl
      exact ⟨hu, hd⟩

/-! ### Per-operation preservation of the replay invariant -/

theorem joinedRows_length_le (st : Store) (ch : String) :
    (joinedRows st ch).length ≤ st.messages.length :=
  le_trans (List.length_filterMap_le _ _) (List.length_filter_le _ _)

theorem rowDeleteFlag_fields (d : String) (r : MessageRow) :
    (rowDeleteFlag d r).id = r.id ∧ (rowDeleteFlag d r).userId = r.userId ∧
      (rowDeleteFlag d r).channelId = r.channelId ∧
      (rowDeleteFlag d r).timestamp = r.timestamp := by
  rw [rowDeleteFlag]
  split
  · exact ⟨rfl, rfl, rfl, rfl⟩
  · exact ⟨rfl, rfl, rfl, rfl⟩

/-- When the author's viewer entry carries the message's own names and the
optional fields survive falsy coalescing, the row replay yields is the
message itself. -/
theorem insertedItem_toInsert (m : ChatMessage) (ch : String) (vv : Viewer)
    (hu : vv.username = m.username) (hd : vv.displayName = m.displayName)
    (hc : orNullStr m.color = m.color) (hb : orNullNat m.bits = m.bits)
    (hr : orNullStr m.replyParentMessageId = m.replyParentMessageId)
    (he : orNullStr m.emoteOffsets = m.emoteOffsets)
    (hdel : m.isDeleted = false) :
    insertedItem (m.toInsert ch) vv = m := by
  obtain ⟨mid, mun, muid, mdn, mmsg, mts, mc, mb, mf1, mf2, mf3, mbits, mreply,
    memote, mdel⟩ := m
  simp only [insertedItem, ChatMessage.toInsert, ChatMessage.mk.injEq]
  exact ⟨trivial, hu, trivial, hd, trivial, trivial, hc, trivial, trivial, trivial,
    trivial, hb, hr, he, hdel.symm⟩

/-- Observing a well-formed fresh message preserves the replay invariant and
grows the message table by exactly one row. -/
theorem replayInv_obsMsg (ctx : SessionContext) (names : String → String × String)
    (bound : Millis) (used : List String) (es : EngineState) (m : ChatMessage)
    (inv : ReplayInv ctx names bound used es)
    (hm : goodMsg ctx names bound m)
    (hidfresh : m.id ∉ used)
    (hlen : es.store.messages.length < 100) :
    ReplayInv ctx names m.timestamp (m.id :: used)
        (applyOp ctx es (EngineOp.obsMsg m)) ∧
      (applyOp ctx es (EngineOp.obsMsg m)).store.messages.length
          = es.store.messages.length + 1 ∧
      (applyOp ctx es (EngineOp.obsMsg m)).store.subscriptions.length
          = es.store.subscriptions.length := by
  obtain ⟨hne, hnotself, hts, hdel, hcolor, hbits, hreply, hemote, husr, hdsp⟩ := hm
  have hanym : es.view.any (fun item => item.id == m.id) = false := by
    rw [List.any_eq_false]
    intro it hit hc
    exact hidfresh (eq_of_beq hc ▸ inv.view_used it hit)
  have hfind : es.view.findIdx? (selfEchoMatch m) = none := by
    rw [List.findIdx?_eq_none_iff]
    intro it hit
    exact selfEchoMatch_eq_false (inv.view_notself it hit)
  have hview : addMessage es.view m = es.view ++ [ChatItem.message m] := by
    rw [addMessage, if_neg (by simp [hanym]), if_neg (by simp [hnotself]), hfind]
  have hes : applyOp ctx es (EngineOp.obsMsg m)
      = ⟨es.view ++ [ChatItem.message m],
          insertMessage (upsertViewer es.store m.userId m.username m.displayName)
            (m.toInsert ctx.channelId)⟩ := by
    show observe ctx es m m.timestamp = _
    simp only [observe]
    rw [if_neg (by simp [hne]), hview]
  rw [hes]
  have hst1msgs : (upsertViewer es.store m.userId m.username m.displayName).messages
      = es.store.messages := upsertViewer_messages es.store m.userId m.username m.displayName
  have hfreshrow : es.store.messages.any (fun r => r.id == m.id) = false := by
    rw [List.any_eq_false]
    intro r hrm hc
    exact hidfresh (eq_of_beq hc ▸ inv.rows_used r hrm)
  have hfresh1 : (upsertViewer es.store m.userId m.username m.displayName).messages.any
      (fun row => row.id == (ChatMessage.toInsert m ctx.channelId).id) = false := by
    rw [hst1msgs]
    show es.store.messages.any (fun r => r.id == m.id) = false
    exact hfreshrow
  obtain ⟨vv, hvv, hvvu, hvvd⟩ :=
    upsertViewer_find_self es.store m.userId m.username m.displayName
  have hnames : ∀ v ∈ es.store.viewers, v.id = m.userId →
      v.username = m.username ∧ v.displayName = m.displayName := by
    intro v hv hid
    obtain ⟨h1, h2⟩ := inv.viewer_names v hv
    rw [h1, h2, hid, husr, hdsp]
    exact ⟨rfl, rfl⟩
  have hload1 : loadFromDatabase (upsertViewer es.store m.userId m.username m.displayName)
      ctx.channelId = loadFromDatabase es.store ctx.channelId :=
    loadFromDatabase_upsertViewer es.store ctx.channelId m.userId m.username m.displayName
      inv.rows_viewer hnames
  have hlenj : (joinedRows (upsertViewer es.store m.userId m.username m.displayName)
      ctx.channelId).length < 100 := by
    have h1 := joinedRows_length_le
      (upsertViewer es.store m.userId m.username m.displayName) ctx.channelId
    rw [hst1msgs] at h1
    omega
  have hts2 : ∀ x ∈ loadFromDatabase
      (upsertViewer es.store m.userId m.username m.displayName) ctx.channelId,
      ChatItem.timestamp x < (ChatMessage.toInsert m ctx.channelId).timestamp := by
    intro x hx
    rw [hload1, ← inv.replay] at hx
    have h1 := inv.view_ts x hx
    show ChatItem.timestamp x < m.timestamp
    exact lt_of_le_of_lt h1 hts
  have htsj2 : ∀ x ∈ joinedRows
      (upsertViewer es.store m.userId m.username m.displayName) ctx.channelId,
      x.timestamp < (ChatMessage.toInsert m ctx.channelId).timestamp := by
    intro x hx
    rcases joinedRows_timestamp hx with ⟨r, hrm, he⟩
    rw [hst1msgs] at hrm
    have h1 := inv.rows_ts r hrm
    show x.timestamp < m.timestamp
    rw [he]
    exact lt_of_le_of_lt h1 hts
  have hload2 : loadFromDatabase
      (insertMessage (upsertViewer es.store m.userId m.username m.displayName)
        (m.toInsert ctx.channelId)) ctx.channelId
      = loadFromDatabase (upsertViewer es.store m.userId m.username m.displayName)
          ctx.channelId
        ++ [ChatItem.message (insertedItem (m.toInsert ctx.channelId) vv)] :=
    loadFromDatabase_insertMessage
      (upsertViewer es.store m.userId m.username m.displayName) ctx.channelId
      (m.toInsert ctx.channelId) vv rfl hfresh1 hlenj hvv hts2 htsj2
  have hii : insertedItem (m.toInsert ctx.channelId) vv = m :=
    insertedItem_toInsert m ctx.channelId vv hvvu hvvd hcolor hbits hreply hemote hdel
  have hmsgs2 : (insertMessage (upsertViewer es.store m.userId m.username m.displayName)
      (m.toInsert ctx.channelId)).messages
      = es.store.messages ++ [(ChatMessage.toInsert m ctx.channelId).toRow] := by
    rw [insertMessage, if_neg (by simp [hfresh1])]
    show (upsertViewer es.store m.userId m.username m.displayName).messages
        ++ [(ChatMessage.toInsert m ctx.channelId).toRow] = _
    rw [hst1msgs]
  have hviewers2 : (insertMessage (upsertViewer es.store m.userId m.username m.displayName)
      (m.toInsert ctx.channelId)).viewers
      = (upsertViewer es.store m.userId m.username m.displayName).viewers :=
    insertMessage_viewers _ _
  have hsubs2 : (insertMessage (upsertViewer es.store m.userId m.username m.displayName)
      (m.toInsert ctx.channelId)).subscriptions = es.store.subscriptions := by
    rw [insertMessage_subscriptions, upsertViewer_subscriptions]
  refine ⟨⟨?_, ?_, ?_, ?_, ?_, ?_, ?_, ?_, ?_, ?_⟩, ?_, ?_⟩
  · show es.view ++ [ChatItem.message m]
      = loadFromDatabase
          (insertMessage (upsertViewer es.store m.userId m.username m.displayName)
            (m.toInsert ctx.channelId)) ctx.channelId
    rw [hload2, hload1, ← inv.replay, hii]
  · intro r hrm
    replace hrm : r ∈ (insertMessage
        (upsertViewer es.store m.userId m.username m.displayName)
        (m.toInsert ctx.channelId)).messages := hrm
    rw [hmsgs2] at hrm
    rcases List.mem_append.mp hrm with h1 | h1
    · exact inv.rows_channel r h1
    · rcases List.mem_singleton.mp h1 with rfl
      rfl
  · intro r hrm
    replace hrm : r ∈ (insertMessage
        (upsertViewer es.store m.userId m.username m.displayName)
        (m.toInsert ctx.channelId)).messages := hrm
    rw [hmsgs2] at hrm
    rcases List.mem_append.mp hrm with h1 | h1
    · exact le_trans (inv.rows_ts r h1) (le_of_lt hts)
    · rcases List.mem_singleton.mp h1 with rfl
      exact le_refl _
  · intro s0 hs0
    replace hs0 : s0 ∈ (insertMessage
        (upsertViewer es.store m.userId m.username m.displayName)
        (m.toInsert ctx.channelId)).subscriptions := hs0
    rw [hsubs2] at hs0
    exact le_trans (inv.subs_ts s0 hs0) (le_of_lt hts)
  · intro r hrm
    replace hrm : r ∈ (insertMessage
        (upsertViewer es.store m.userId m.username m.displayName)
        (m.toInsert ctx.channelId)).messages := hrm
    rw [hmsgs2] at hrm
    rcases List.mem_append.mp hrm with h1 | h1
    · exact List.mem_cons_of_mem _ (inv.rows_used r h1)
    · rcases List.mem_singleton.mp h1 with rfl
      exact List.mem_cons_self _ _
  · intro s0 hs0
    replace hs0 : s0 ∈ (insertMessage
        (upsertViewer es.store m.userId m.username m.displayName)
        (m.toInsert ctx.channelId)).subscriptions := hs0
    rw [hsubs2] at hs0
    exact List.mem_cons_of_mem _ (inv.subs_used s0 hs0)
  · intro r hrm
    replace hrm : r ∈ (insertMessage
        (upsertViewer es.store m.userId m.username m.displayName)
        (m.toInsert ctx.channelId)).messages := hrm
    rw [hmsgs2] at hrm
    rcases List.mem_append.mp hrm with h1 | h1
    · exact inv.rows_notself r h1
    · rcases List.mem_singleton.mp h1 with rfl
      exact hnotself
  · intro s0 hs0
    replace hs0 : s0 ∈ (insertMessage
        (upsertViewer es.store m.userId m.username m.displayName)
        (m.toInsert ctx.channelId)).subscriptions := hs0
    rw [hsubs2] at hs0
    exact inv.subs_notself s0 hs0
  · intro v hv
    replace hv : v ∈ (insertMessage
        (upsertViewer es.store m.userId m.username m.displayName)
        (m.toInsert ctx.channelId)).viewers := hv
    rw [hviewers2] at hv
    exact upsertViewer_names es.store m.userId m.username m.displayName names
      inv.viewer_names husr hdsp v hv
  · intro r hrm
    replace hrm : r ∈ (insertMessage
        (upsertViewer es.store m.userId m.username m.displayName)
        (m.toInsert ctx.channelId)).messages := hrm
    rw [hmsgs2] at hrm
    show (((insertMessage (upsertViewer es.store m.userId m.username m.displayName)
        (m.toInsert ctx.channelId)).viewers).find? (fun v => v.id == r.userId)).isSome = true
    rw [hviewers2]
    rcases List.mem_append.mp hrm with h1 | h1
    · exact upsertViewer_find_isSome es.store m.userId m.username m.displayName r.userId
        (inv.rows_viewer r h1)
    · rcases List.mem_singleton.mp h1 with rfl
      show (((upsertViewer es.store m.userId m.username m.displayName).viewers).find?
          (fun v => v.id == m.userId)).isSome = true
      rw [hvv]
      rfl
  · show (insertMessage (upsertViewer es.store m.userId m.username m.displayName)
        (m.toInsert ctx.channelId)).messages.length = es.store.messages.length + 1
    rw [hmsgs2, List.length_append]
    rfl
  · show (insertMessage (upsertViewer es.store m.userId m.username m.displayName)
        (m.toInsert ctx.channelId)).subscriptions.length = es.store.subscriptions.length
    rw [hsubs2]

/-- Observing a well-formed fresh subscription event preserves the replay
invariant and grows the subscription table by exactly one row. -/
theorem replayInv_obsSub (ctx : SessionContext) (names : String → String × String)
    (bound : Millis) (used : List String) (es : EngineState) (s : SubscriptionEvent)
    (inv : ReplayInv ctx names bound used es)
    (hs : goodSub ctx bound s)
    (hidfresh : s.id ∉ used)
    (hlen : es.store.subscriptions.length < 100) :
    ReplayInv ctx names s.timestamp (s.id :: used)
        (applyOp ctx es (EngineOp.obsSub s)) ∧
      (applyOp ctx es (EngineOp.obsSub s)).store.messages.length
          = es.store.messages.length ∧
      (applyOp ctx es (EngineOp.obsSub s)).store.subscriptions.length
          = es.store.subscriptions.length + 1 := by
  obtain ⟨hch, hnotself, hts, hnorm⟩ := hs
  have hanyv : es.view.any (fun item => item.id == s.id) = false := by
    rw [List.any_eq_false]
    intro it hit hc
    exact hidfresh (eq_of_beq hc ▸ inv.view_used it hit)
  have hfreshsub : es.store.subscriptions.any (fun row => row.id == s.id) = false := by
    rw [List.any_eq_false]
    intro r hrm hc
    exact hidfresh (eq_of_beq hc ▸ inv.subs_used r hrm)
  have hes : applyOp ctx es (EngineOp.obsSub s)
      = ⟨es.view ++ [ChatItem.subscription s], insertSubscription es.store s⟩ := by
    show observeSubscription es s = _
    simp only [observeSubscription]
    rw [addSubscription, if_neg (by simp [hanyv])]
  rw [hes]
  have hlenf : (es.store.subscriptions.filter
      (fun r => r.channelId == ctx.channelId)).length < 100 :=
    lt_of_le_of_lt (List.length_filter_le _ _) hlen
  have hts2 : ∀ x ∈ loadFromDatabase es.store ctx.channelId,
      ChatItem.timestamp x < s.timestamp := by
    intro x hx
    rw [← inv.replay] at hx
    exact lt_of_le_of_lt (inv.view_ts x hx) hts
  have htsub2 : ∀ r ∈ es.store.subscriptions.filter
      (fun r => r.channelId == ctx.channelId), r.timestamp < s.timestamp := by
    intro r hrm
    exact lt_of_le_of_lt (inv.subs_ts r (List.mem_filter.mp hrm).1) hts
  have hload : loadFromDatabase (insertSubscription es.store s) ctx.channelId
      = loadFromDatabase es.store ctx.channelId ++ [ChatItem.subscription s] :=
    loadFromDatabase_insertSubscription es.store ctx.channelId s hch hnorm hfreshsub
      hlenf hts2 htsub2
  have hmsgs2 : (insertSubscription es.store s).messages = es.store.messages :=
    insertSubscription_messages _ _
  have hviewers2 : (insertSubscription es.store s).viewers = es.store.viewers :=
    insertSubscription_viewers _ _
  have hsubs2 : (insertSubscription es.store s).subscriptions
      = es.store.subscriptions ++ [s] := by
    rw [insertSubscription, if_neg (by simp [hfreshsub]), hnorm]
  refine ⟨⟨?_, ?_, ?_, ?_, ?_, ?_, ?_, ?_, ?_, ?_⟩, ?_, ?_⟩
  · show es.view ++ [ChatItem.subscription s]
      = loadFromDatabase (insertSubscription es.store s) ctx.channelId
    rw [hload, ← inv.replay]
  · intro r hrm
    replace hrm : r ∈ (insertSubscription es.store s).messages := hrm
    rw [hmsgs2] at hrm
    exact inv.rows_channel r hrm
  · intro r hrm
    replace hrm : r ∈ (insertSubscription es.store s).messages := hrm
    rw [hmsgs2] at hrm
    exact le_trans (inv.rows_ts r hrm) (le_of_lt hts)
  · intro s0 hs0
    replace hs0 : s0 ∈ (insertSubscription es.store s).subscriptions := hs0
    rw [hsubs2] at hs0
    rcases List.mem_append.mp hs0 with h1 | h1
    · exact le_trans (inv.subs_ts s0 h1) (le_of_lt hts)
    · rcases List.mem_singleton.mp h1 with rfl
      exact le_refl _
  · intro r hrm
    replace hrm : r ∈ (insertSubscription es.store s).messages := hrm
    rw [hmsgs2] at hrm
    exact List.mem_cons_of_mem _ (inv.rows_used r hrm)
  · intro s0 hs0
    replace hs0 : s0 ∈ (insertSubscription es.store s).subscriptions := hs0
    rw [hsubs2] at hs0
    rcases List.mem_append.mp hs0 with h1 | h1
    · exact List.mem_cons_of_mem _ (inv.subs_used s0 h1)
    · rcases List.mem_singleton.mp h1 with rfl
      exact List.mem_cons_self _ _
  · intro r hrm
    replace hrm : r ∈ (insertSubscription es.store s).messages := hrm
    rw [hmsgs2] at hrm
    exact inv.rows_notself r hrm
  · intro s0 hs0
    replace hs0 : s0 ∈ (insertSubscription es.store s).subscriptions := hs0
    rw [hsubs2] at hs0
    rcases List.mem_append.mp hs0 with h1 | h1
    · exact inv.subs_notself s0 h1
    · rcases List.mem_singleton.mp h1 with rfl
      exact hnotself
  · intro v hv
    replace hv : v ∈ (insertSubscription es.store s).viewers := hv
    rw [hviewers2] at hv
    exact inv.viewer_names v hv
  · intro r hrm
    replace hrm : r ∈ (insertSubscription es.store s).messages := hrm
    rw [hmsgs2] at hrm
    show (((insertSubscription es.store s).viewers).find?
        (fun v => v.id == r.userId)).isSome = true
    rw [hviewers2]
    exact inv.rows_viewer r hrm
  · show (insertSubscription es.store s).messages.length = es.store.messages.length
    rw [hmsgs2]
  · show (insertSubscription es.store s).subscriptions.length
        = es.store.subscriptions.length + 1
    rw [hsubs2, List.length_append]
    rfl

/-- A deletion event preserves the replay invariant and both table sizes. -/
theorem replayInv_obsDel (ctx : SessionContext) (names : String → String × String)
    (bound : Millis) (used : List String) (es : EngineState) (did : String)
    (inv : ReplayInv ctx names bound used es) :
    ReplayInv ctx names bound used (applyOp ctx es (EngineOp.obsDel did)) ∧
      (applyOp ctx es (EngineOp.obsDel did)).store.messages.length
          = es.store.messages.length ∧
      (applyOp ctx es (EngineOp.obsDel did)).store.subscriptions.length
          = es.store.subscriptions.length := by
  have hes : applyOp ctx es (EngineOp.obsDel did)
      = ⟨deleteMessage es.view did, markMessageAsDeleted es.store did⟩ := rfl
  rw [hes]
  have hmsgs2 : (markMessageAsDeleted es.store did).messages
      = es.store.messages.map (rowDeleteFlag did) := rfl
  have hsubs2 : (markMessageAsDeleted es.store did).subscriptions
      = es.store.subscriptions := rfl
  have hviewers2 : (markMessageAsDeleted es.store did).viewers = es.store.viewers := rfl
  refine ⟨⟨?_, ?_, ?_, ?_, ?_, ?_, ?_, ?_, ?_, ?_⟩, ?_, ?_⟩
  · show deleteMessage es.view did
      = loadFromDatabase (markMessageAsDeleted es.store did) ctx.channelId
    rw [loadFromDatabase_markDeleted, inv.replay]
  · intro r hrm
    replace hrm : r ∈ (markMessageAsDeleted es.store did).messages := hrm
    rw [hmsgs2] at hrm
    rcases List.mem_map.mp hrm with ⟨r0, hr0, rfl⟩
    rw [(rowDeleteFlag_fields did r0).2.2.1]
    exact inv.rows_channel r0 hr0
  · intro r hrm
    replace hrm : r ∈ (markMessageAsDeleted es.store did).messages := hrm
    rw [hmsgs2] at hrm
    rcases List.mem_map.mp hrm with ⟨r0, hr0, rfl⟩
    rw [(rowDeleteFlag_fields did r0).2.2.2]
    exact inv.rows_ts r0 hr0
  · intro s0 hs0
    replace hs0 : s0 ∈ (markMessageAsDeleted es.store did).subscriptions := hs0
    rw [hsubs2] at hs0
    exact inv.subs_ts s0 hs0
  · intro r hrm
    replace hrm : r ∈ (markMessageAsDeleted es.store did).messages := hrm
    rw [hmsgs2] at hrm
    rcases List.mem_map.mp hrm with ⟨r0, hr0, rfl⟩
    rw [(rowDeleteFlag_fields did r0).1]
    exact inv.rows_used r0 hr0
  · intro s0 hs0
    replace hs0 : s0 ∈ (markMessageAsDeleted es.store did).subscriptions := hs0
    rw [hsubs2] at hs0
    exact inv.subs_used s0 hs0
  · intro r hrm
    replace hrm : r ∈ (markMessageAsDeleted es.store did).messages := hrm
    rw [hmsgs2] at hrm
    rcases List.mem_map.mp hrm with ⟨r0, hr0, rfl⟩
    rw [(rowDeleteFlag_fields did r0).1]
    exact inv.rows_notself r0 hr0
  · intro s0 hs0
    replace hs0 : s0 ∈ (markMessageAsDeleted es.store did).subscriptions := hs0
    rw [hsubs2] at hs0
    exact inv.subs_notself s0 hs0
  · intro v hv
    replace hv : v ∈ (markMessageAsDeleted es.store did).viewers := hv
    rw [hviewers2] at hv
    exact inv.viewer_names v hv
  · intro r hrm
    replace hrm : r ∈ (markMessageAsDeleted es.store did).messages := hrm
    rw [hmsgs2] at hrm
    rcases List.mem_map.mp hrm with ⟨r0, hr0, rfl⟩
    show (((markMessageAsDeleted es.store did).viewers).find?
        (fun v => v.id == (rowDeleteFlag did r0).userId)).isSome = true
    rw [hviewers2, (rowDeleteFlag_fields did r0).2.1]
    exact inv.rows_viewer r0 hr0
  · show (markMessageAsDeleted es.store did).messages.length = es.store.messages.length
    rw [hmsgs2, List.length_map]
  · show (markMessageAsDeleted es.store did).subscriptions.length
        = es.store.subscriptions.length
    rw [hsubs2]

/-- The replay invariant is preserved along every well-formed trace whose
total event budget fits the 100-row fetch limit. -/
theorem replayInv_applyOps (ctx : SessionContext) (names : String → String × String) :
    ∀ (ops : List EngineOp) (bound : Millis) (used : List String) (es : EngineState),
      ReplayInv ctx names bound used es →
      goodTrace ctx names bound used ops →
      es.store.messages.length + es.store.subscriptions.length + ops.length ≤ 100 →
      ∃ b2 u2, ReplayInv ctx names b2 u2 (applyOps ctx es ops) := by
  intro ops
  induction ops with
  | nil =>
    intro bound used es inv _ _
    exact ⟨bound, used, inv⟩
  | cons op ops ih =>
    intro bound used es inv htr hlen
    simp only [List.length_cons] at hlen
    cases op with
    | obsMsg m =>
      obtain ⟨hm, hf, htr2⟩ := htr
      obtain ⟨inv2, hl1, hl2⟩ :=
        replayInv_obsMsg ctx names bound used es m inv hm hf (by omega)
      exact ih m.timestamp (m.id :: used) (applyOp ctx es (EngineOp.obsMsg m)) inv2 htr2
        (by rw [hl1, hl2]; omega)
    | obsSub s0 =>
      obtain ⟨hs, hf, htr2⟩ := htr
      obtain ⟨inv2, hl1, hl2⟩ :=
        replayInv_obsSub ctx names bound used es s0 inv hs hf (by omega)
      exact ih s0.timestamp (s0.id :: used) (applyOp ctx es (EngineOp.obsSub s0)) inv2 htr2
        (by rw [hl1, hl2]; omega)
    | obsDel did =>
      obtain ⟨inv2, hl1, hl2⟩ := replayInv_obsDel ctx names bound used es did inv
      exact ih bound used (applyOp ctx es (EngineOp.obsDel did)) inv2 htr
        (by rw [hl1, hl2]; omega)

/-- The replay invariant holds of the empty engine. -/
theorem replayInv_empty (ctx : SessionContext) (names : String → String × String)
    (b0 : Millis) : ReplayInv ctx names b0 [] EngineState.empty := by
  refine ⟨rfl, ?_, ?_, ?_, ?_, ?_, ?_, ?_, ?_, ?_⟩ <;> (intro x hx; cases hx)

/-- C2 (amended): for live traces in which events arrive in strictly
increasing timestamp order with globally fresh non-`self-` server ids, no
self-authored messages (so no reconciliation fires), fields that survive the
falsy-coalescing round trip, author names drawn from a fixed directory, and
at most 100 events in total (the replay fetch limit), rebuilding the ordered
view from the store alone yields exactly the live-built view: same ids, same
fields, same order.  (Outside these conditions the equivalence fails — see
the counterexample: the live view keeps arrival order while replay sorts by
timestamp.) -/
theorem replay_equivalence_inOrder (ctx : SessionContext)
    (names : String → String × String) (b0 : Millis) (ops : List EngineOp)
    (hgood : goodTrace ctx names b0 [] ops)
    (hlen : ops.length ≤ 100) :
    (applyOps ctx EngineState.empty ops).view
      = loadFromDatabase (applyOps ctx EngineState.empty ops).store ctx.channelId := by
  obtain ⟨b2, u2, inv⟩ := replayInv_applyOps ctx names ops b0 [] EngineState.empty
    (replayInv_empty ctx names b0) hgood (by show 0 + 0 + ops.length ≤ 100; omega)
  exact inv.replay

/-- Witness for C2's amended theorem: a single well-formed observed message
leaves a view that replay rebuilds exactly. -/
theorem replay_equivalence_inOrder_witness :
    (applyOps ctxA EngineState.empty
        [EngineOp.obsMsg (mkMsg "srv-1" "alice" "u1" "Alice" "hi" 50)]).view
      = loadFromDatabase (applyOps ctxA EngineState.empty
          [EngineOp.obsMsg (mkMsg "srv-1" "alice" "u1" "Alice" "hi" 50)]).store
          ctxA.channelId :=
  replay_equivalence_inOrder ctxA (fun _ => ("alice", "Alice")) 0
    [EngineOp.obsMsg (mkMsg "srv-1" "alice" "u1" "Alice" "hi" 50)]
    ⟨⟨by decide, by decide, by decide, rfl, rfl, rfl, rfl, rfl, rfl, rfl⟩,
      by decide, trivial⟩
    (by decide)

end WardenStudio
